import Mathlib

/-!
Verification development for the room-orchestrator service
(`services/room/src/room/`): a shallow embedding in Lean 4 of the
in-memory store (`store.py`), the mention parser and LLM dispatcher
(`llm_dispatcher.py`) and the per-stream session handler (`session.py`),
together with theorems settling the specification claims about them.

Modelling conventions:
* Python `datetime` timestamps become `Nat` (milliseconds since epoch);
  the implicit `_now()` calls become explicit `now : Nat` arguments.
* `uuid.uuid4().hex[:n]` fresh-id generation becomes an explicit
  `fresh : String` argument.
* Python dicts become association lists in insertion order (Python
  dicts iterate in insertion order); `dict.get` is first-match lookup.
* Python sets of strings appear only where the source iterates over
  them; since CPython leaves set iteration order unspecified (string
  hashing is even randomized per process), such an iteration order is
  passed in as an explicit list argument constrained to enumerate the
  set's elements exactly once.
* Fallible code (Python exceptions, e.g. `page[0]` on an empty list)
  returns `Option`, with `none` for the raised exception.
-/

namespace RoomService

/-- Room visibility enum from `room_pb2.RoomVisibility`. -/
inductive RoomVisibility
  | ROOM_VISIBILITY_PUBLIC
  | ROOM_VISIBILITY_PRIVATE
deriving DecidableEq

/-- Participant type enum from `room_pb2.ParticipantType`. -/
inductive ParticipantType
  | HUMAN
  | LLM
deriving DecidableEq

/-- Poll status enum from `room_pb2.PollStatus`. -/
inductive PollStatus
  | POLL_OPEN
  | POLL_CLOSED
deriving DecidableEq

/-- Role enum from `room_pb2.Role` (values are opaque to the claims). -/
inductive Role
  | ROLE_UNSPECIFIED
  | ADMIN
  | MEMBER
  | VIEWER
deriving DecidableEq

/-- `room_pb2.LLMConfig`: one assistant configuration inside a room. -/
structure LLMConfig where
  id : String
  model : String
  persona : String
  display_name : String
  title : String
  chat_style : Nat
  avatar : String
deriving DecidableEq

/-- `store.StoredRoom`. -/
structure StoredRoom where
  room_id : String
  name : String
  created_at : Nat
  created_by : String
  llms : List LLMConfig
  description : String
  visibility : RoomVisibility
deriving DecidableEq

/-- `store.StoredMessage`. -/
structure StoredMessage where
  message_id : String
  room_id : String
  sender_id : String
  sender_name : String
  sender_type : ParticipantType
  content : String
  reply_to : Option String
  timestamp : Nat
  sort_key : String
  poll_id : Option String
deriving DecidableEq

/-- `store.StoredParticipant`. -/
structure StoredParticipant where
  user_id : String
  room_id : String
  display_name : String
  role : Role
  joined_at : Nat
  title : String
  avatar : String
deriving DecidableEq

/-- `store.StoredPollVote`. -/
structure StoredPollVote where
  voter_id : String
  voter_name : String
  reason : String
  voted_at : Nat
deriving DecidableEq

/-- `store.StoredPollOption`. -/
structure StoredPollOption where
  id : String
  text : String
  description : String
  votes : List StoredPollVote
deriving DecidableEq

/-- `store.StoredPoll`. -/
structure StoredPoll where
  poll_id : String
  room_id : String
  creator_id : String
  creator_name : String
  creator_type : ParticipantType
  question : String
  options : List StoredPollOption
  allow_multiple : Bool
  anonymous : Bool
  status : PollStatus
  created_at : Nat
  closed_at : Option Nat
  mandatory : Bool
deriving DecidableEq

/-- `store._make_sort_key`: `f"MSG#{epoch_ms}#{msg_id}"`. -/
def make_sort_key (epoch_ms : Nat) (msg_id : String) : String :=
  "MSG#" ++ toString epoch_ms ++ "#" ++ msg_id

/-- `store.MemoryStore` state: the dicts of the store, as insertion-order
association lists. `_rooms` is keyed by the `room_id` field, `_polls` by
the `poll_id` field. -/
structure MemoryStore where
  rooms : List StoredRoom
  messages : List (String × List StoredMessage)
  participants : List StoredParticipant
  user_rooms : List (String × List String)
  polls : List StoredPoll
  room_polls : List (String × List String)
deriving DecidableEq

namespace MemoryStore

/-- The empty store (`MemoryStore.__init__`). -/
def init : MemoryStore := ⟨[], [], [], [], [], []⟩

/-- `self._rooms.get(room_id)`: dict lookup, modelled as first-match
search on the keyed list. -/
def get_room (s : MemoryStore) (room_id : String) : Option StoredRoom :=
  s.rooms.find? (fun r => r.room_id = room_id)

/-- `self._polls.get(poll_id)`. -/
def get_poll (s : MemoryStore) (poll_id : String) : Option StoredPoll :=
  s.polls.find? (fun p => p.poll_id = poll_id)

/-- Messages of a room: `self._messages.get(room_id, [])`. -/
def msgsOf (s : MemoryStore) (room_id : String) : List StoredMessage :=
  match s.messages.find? (fun kv => kv.1 = room_id) with
  | some kv => kv.2
  | none => []

/-- Mutating the (unique-keyed) `_polls` dict entry found by `get_poll`:
replace the first list element with that key. -/
def replacePoll : List StoredPoll → String → StoredPoll → List StoredPoll
  | [], _, _ => []
  | q :: qs, pid, p => if q.poll_id = pid then p :: qs else q :: replacePoll qs pid p

/-- Mutating the (unique-keyed) `_rooms` dict entry found by `get_room`. -/
def replaceRoom : List StoredRoom → String → StoredRoom → List StoredRoom
  | [], _, _ => []
  | q :: qs, rid, r => if q.room_id = rid then r :: qs else q :: replaceRoom qs rid r

/-- `self._messages.setdefault(room_id, []).append(msg)`. -/
def appendMsg : List (String × List StoredMessage) → String → StoredMessage →
    List (String × List StoredMessage)
  | [], rid, m => [(rid, [m])]
  | kv :: rest, rid, m =>
      if kv.1 = rid then (kv.1, kv.2 ++ [m]) :: rest else kv :: appendMsg rest rid m

/-- `MemoryStore.create_room`. The fresh `uuid4().hex[:12]` room id is the
explicit `room_id` argument; `now` is the creation timestamp. Also creates
the empty message list for the room, as the source does. -/
def create_room (s : MemoryStore) (room_id : String) (name : String)
    (created_by : String) (llms : List LLMConfig) (description : String)
    (visibility : RoomVisibility) (now : Nat) : MemoryStore :=
  { s with
    rooms := s.rooms ++ [⟨room_id, name, now, created_by, llms, description, visibility⟩]
    messages := s.messages ++ [(room_id, [])] }

/-- `MemoryStore.add_llm`: `False` if the room is missing or an LLM with
the same id is already present, else append. -/
def add_llm (s : MemoryStore) (room_id : String) (llm : LLMConfig) :
    Bool × MemoryStore :=
  match s.get_room room_id with
  | none => (false, s)
  | some room =>
      if room.llms.any (fun l => l.id = llm.id) then (false, s)
      else
        let room' := { room with llms := room.llms ++ [llm] }
        (true, { s with rooms := replaceRoom s.rooms room_id room' })

/-- Optional per-field patch for `update_llm` (`None` fields untouched). -/
structure LLMPatch where
  model : Option String
  persona : Option String
  display_name : Option String
  title : Option String
  chat_style : Option Nat
  avatar : Option String
deriving DecidableEq

/-- Apply the non-`None` fields of a patch to one config
(the body of the `for llm in room.llms: if llm.id == llm_id:` branch). -/
def applyPatch (l : LLMConfig) (p : LLMPatch) : LLMConfig :=
  { l with
    model := p.model.getD l.model
    persona := p.persona.getD l.persona
    display_name := p.display_name.getD l.display_name
    title := p.title.getD l.title
    chat_style := p.chat_style.getD l.chat_style
    avatar := p.avatar.getD l.avatar }

/-- Update the first config with the given id, returning the updated
config when found (the source loop mutates in place and returns early). -/
def patchFirst : List LLMConfig → String → LLMPatch →
    List LLMConfig × Option LLMConfig
  | [], _, _ => ([], none)
  | l :: ls, llm_id, p =>
      if l.id = llm_id then (applyPatch l p :: ls, some (applyPatch l p))
      else
        let r := patchFirst ls llm_id p
        (l :: r.1, r.2)

/-- `MemoryStore.update_llm`. -/
def update_llm (s : MemoryStore) (room_id llm_id : String) (p : LLMPatch) :
    Option LLMConfig × MemoryStore :=
  match s.get_room room_id with
  | none => (none, s)
  | some room =>
      let r := patchFirst room.llms llm_id p
      match r.2 with
      | none => (none, s)
      | some upd =>
          let room' := { room with llms := r.1 }
          (some upd, { s with rooms := replaceRoom s.rooms room_id room' })

/-- `MemoryStore.remove_llm`: drop every config with the id; `True` iff
the list shrank. -/
def remove_llm (s : MemoryStore) (room_id llm_id : String) :
    Bool × MemoryStore :=
  match s.get_room room_id with
  | none => (false, s)
  | some room =>
      let kept := room.llms.filter (fun l => l.id ≠ llm_id)
      (decide (kept.length < room.llms.length),
        { s with rooms := replaceRoom s.rooms room_id { room with llms := kept } })

/-- `MemoryStore.add_message`. `msg_id = message_id or uuid4().hex[:16]`:
Python `or` falls through on `None` and on the empty string; the fresh
uuid is the explicit `fresh` argument, the timestamp is `now`. -/
def add_message (s : MemoryStore) (room_id sender_id sender_name : String)
    (sender_type : ParticipantType) (content : String)
    (reply_to : Option String) (poll_id : Option String)
    (message_id : Option String) (fresh : String) (now : Nat) :
    StoredMessage × MemoryStore :=
  let msg_id :=
    match message_id with
    | some midd => if midd = "" then fresh else midd
    | none => fresh
  let msg : StoredMessage :=
    ⟨msg_id, room_id, sender_id, sender_name, sender_type, content,
      reply_to, now, make_sort_key now msg_id, poll_id⟩
  (msg, { s with messages := appendMsg s.messages room_id msg })

/-- `MemoryStore.add_participant`: upsert keyed by `(room_id, user_id)`;
on insert, also add the room to `_user_rooms[user_id]` (a set, modelled
as a member-once list). -/
def add_participant (s : MemoryStore) (room_id user_id display_name : String)
    (role : Role) (title avatar : String) (now : Nat) :
    StoredParticipant × MemoryStore :=
  match s.participants.find? (fun p => p.room_id = room_id ∧ p.user_id = user_id) with
  | some _ =>
      let upd := fun (p : StoredParticipant) =>
        if p.room_id = room_id ∧ p.user_id = user_id then
          { p with display_name := display_name, role := role,
                   title := title, avatar := avatar }
        else p
      let p' : StoredParticipant :=
        ⟨user_id, room_id, display_name, role, 0, title, avatar⟩
      match (s.participants.map upd).find?
          (fun p => p.room_id = room_id ∧ p.user_id = user_id) with
      | some q => (q, { s with participants := s.participants.map upd })
      | none => (p', { s with participants := s.participants.map upd })
  | none =>
      let p : StoredParticipant :=
        ⟨user_id, room_id, display_name, role, now, title, avatar⟩
      let ur :=
        match s.user_rooms.find? (fun kv => kv.1 = user_id) with
        | some _ =>
            s.user_rooms.map (fun kv2 =>
              if kv2.1 = user_id then
                (kv2.1, if room_id ∈ kv2.2 then kv2.2 else kv2.2 ++ [room_id])
              else kv2)
        | none => s.user_rooms ++ [(user_id, [room_id])]
      (p, { s with participants := s.participants ++ [p], user_rooms := ur })

/-- `MemoryStore.get_participants`: dict-items filter on the room key. -/
def get_participants (s : MemoryStore) (room_id : String) : List StoredParticipant :=
  s.participants.filter (fun p => p.room_id = room_id)

/-- `MemoryStore.create_poll`. Fresh poll id and option ids are explicit
arguments (`uuid4` values); `option_ids` is zipped against the
`(text, description)` pairs as the source's comprehension does. -/
def create_poll (s : MemoryStore) (poll_id : String) (room_id : String)
    (creator_id creator_name : String) (creator_type : ParticipantType)
    (question : String) (options : List (String × String))
    (option_ids : List String) (allow_multiple anonymous mandatory : Bool)
    (now : Nat) : StoredPoll × MemoryStore :=
  let stored_options :=
    (options.zip option_ids).map (fun od => ⟨od.2, od.1.1, od.1.2, []⟩)
  let poll : StoredPoll :=
    ⟨poll_id, room_id, creator_id, creator_name, creator_type, question,
      stored_options, allow_multiple, anonymous, PollStatus.POLL_OPEN, now,
      none, mandatory⟩
  let rp :=
    match s.room_polls.find? (fun kv => kv.1 = room_id) with
    | some _ =>
        s.room_polls.map (fun kv =>
          if kv.1 = room_id then (kv.1, kv.2 ++ [poll_id]) else kv)
    | none => s.room_polls ++ [(room_id, [poll_id])]
  (poll, { s with polls := s.polls ++ [poll], room_polls := rp })

/-- Vote-removal pass of `add_vote`: `opt.votes = [v for v in opt.votes
if v.voter_id != voter_id]`, applied to every option. -/
def cleanOption (voter_id : String) (o : StoredPollOption) : StoredPollOption :=
  { o with votes := o.votes.filter (fun v => v.voter_id ≠ voter_id) }

/-- Options of the poll after a successful vote: the source first finds
`option` (first with matching id), then — when `allow_multiple` is false —
rebinds every option's vote list without the voter, then appends the new
vote to the found option's list. -/
def voteOptions (voter_id option_id : String) (allow_multiple : Bool)
    (vote : StoredPollVote) : List StoredPollOption → List StoredPollOption
  | [] => []
  | o :: os =>
      if o.id = option_id then
        let oc := if allow_multiple then o else cleanOption voter_id o
        { oc with votes := oc.votes ++ [vote] } ::
          (if allow_multiple then os else os.map (cleanOption voter_id))
      else
        (if allow_multiple then o else cleanOption voter_id o) ::
          voteOptions voter_id option_id allow_multiple vote os

/-- Poll-level body of `MemoryStore.add_vote`: `None` when the poll is
closed, the option is unknown, or this voter already voted on that
option; otherwise the updated poll, the updated found option, and the
recorded vote. -/
def addVoteToPoll (p : StoredPoll) (option_id voter_id voter_name reason : String)
    (now : Nat) : Option (StoredPoll × StoredPollOption × StoredPollVote) :=
  if p.status ≠ PollStatus.POLL_OPEN then none
  else
    match p.options.find? (fun o => o.id = option_id) with
    | none => none
    | some o =>
        if o.votes.any (fun v => v.voter_id = voter_id) then none
        else
          let vote : StoredPollVote := ⟨voter_id, voter_name, reason, now⟩
          let opts := voteOptions voter_id option_id p.allow_multiple vote p.options
          let oc := if p.allow_multiple then o else cleanOption voter_id o
          some ({ p with options := opts },
                { oc with votes := oc.votes ++ [vote] }, vote)

/-- `MemoryStore.add_vote`. -/
def add_vote (s : MemoryStore) (poll_id option_id voter_id voter_name reason : String)
    (now : Nat) :
    Option (StoredPoll × StoredPollOption × StoredPollVote) × MemoryStore :=
  match s.get_poll poll_id with
  | none => (none, s)
  | some p =>
      match addVoteToPoll p option_id voter_id voter_name reason now with
      | none => (none, s)
      | some r =>
          (some r, { s with polls := replacePoll s.polls poll_id r.1 })

/-- Record-level body of `MemoryStore.close_poll`: unconditionally set
status to closed and stamp `closed_at` with the current time. -/
def closePollRecord (p : StoredPoll) (now : Nat) : StoredPoll :=
  { p with status := PollStatus.POLL_CLOSED, closed_at := some now }

/-- `MemoryStore.close_poll`. -/
def close_poll (s : MemoryStore) (poll_id : String) (now : Nat) :
    Option StoredPoll × MemoryStore :=
  match s.get_poll poll_id with
  | none => (none, s)
  | some p =>
      (some (closePollRecord p now),
        { s with polls := replacePoll s.polls poll_id (closePollRecord p now) })

/-- `MemoryStore.list_room_polls`. -/
def list_room_polls (s : MemoryStore) (room_id : String) (active_only : Bool) :
    List StoredPoll :=
  let poll_ids :=
    match s.room_polls.find? (fun kv => kv.1 = room_id) with
    | some kv => kv.2
    | none => []
  let polls := poll_ids.filterMap (fun pid => s.polls.find? (fun p => p.poll_id = pid))
  if active_only then polls.filter (fun p => p.status = PollStatus.POLL_OPEN) else polls

end MemoryStore

/-- Votes on one option cast by voter `v`. -/
def voterVotes (v : String) (o : StoredPollOption) : List StoredPollVote :=
  o.votes.filter (fun w => w.voter_id = v)

/-- Number of votes carried by a poll whose `voter_id` is `v`. -/
def StoredPoll.votesBy (p : StoredPoll) (v : String) : Nat :=
  (p.options.map (fun o => (voterVotes v o).length)).sum

/-- First index of the message with the given sort key
(`for i, m in enumerate(msgs): if m.sort_key == cursor`). -/
def findSortIdx (c : String) : List StoredMessage → Option Nat
  | [] => none
  | m :: ms => if m.sort_key = c then some 0 else (findSortIdx c ms).map (· + 1)

/-- The `end` index computed by `load_history`: the cursor's position in
the message list when the cursor is a non-empty present sort key (Python
`if cursor:` is false on `None` and on `""`), else the list length. -/
def cursorIdx (msgs : List StoredMessage) (cursor : Option String) : Nat :=
  match cursor with
  | none => msgs.length
  | some c =>
      if c = "" then msgs.length
      else
        match findSortIdx c msgs with
        | some i => i
        | none => msgs.length

/-- `MemoryStore.load_history` on one room's message list. `none` models
the `IndexError` the source raises from `page[0]` when `start > 0` and
the page is empty (which happens exactly when `limit = 0`). -/
def load_history_list (msgs : List StoredMessage) (limit : Nat)
    (cursor : Option String) : Option (List StoredMessage × Option String) :=
  let e := cursorIdx msgs cursor
  let start := e - limit
  let page := (msgs.drop start).take (e - start)
  if 0 < start then
    match page.head? with
    | some m => some (page, some m.sort_key)
    | none => none
  else some (page, none)

/-- `MemoryStore.load_history`. -/
def MemoryStore.load_history (s : MemoryStore) (room_id : String) (limit : Nat)
    (cursor : Option String) : Option (List StoredMessage × Option String) :=
  load_history_list (s.msgsOf room_id) limit cursor

/-- Successive `load_history` pages concatenated oldest-first, following
the returned cursors until `next_cursor` is empty (fuel-bounded). -/
def pagesConcat (msgs : List StoredMessage) (limit : Nat) :
    Nat → Option String → List StoredMessage
  | 0, _ => []
  | fuel + 1, cursor =>
      match load_history_list msgs limit cursor with
      | none => []
      | some (page, none) => page
      | some (page, some nc) => pagesConcat msgs limit fuel (some nc) ++ page

/-- Stable insert for descending `created_at` order: the new room goes
after every room whose key is ≥ its own (Python `list.sort` with
`reverse=True` is a stable descending sort). -/
def insertByCreatedDesc (r : StoredRoom) : List StoredRoom → List StoredRoom
  | [] => [r]
  | x :: xs =>
      if r.created_at ≤ x.created_at then x :: insertByCreatedDesc r xs
      else r :: x :: xs

/-- Stable sort by `created_at` descending. -/
def sortByCreatedDesc (rs : List StoredRoom) : List StoredRoom :=
  rs.foldl (fun acc r => insertByCreatedDesc r acc) []

/-- Python `x == user_id` where `user_id : Optional[str]`: comparison
with `None` is `False`. -/
def pyEqStr (x : String) (o : Option String) : Bool :=
  match o with
  | some u => x = u
  | none => false

/-- First index of the room with the given id in a room list. -/
def findRoomIdx (c : String) : List StoredRoom → Option Nat
  | [] => none
  | r :: rs => if r.room_id = c then some 0 else (findRoomIdx c rs).map (· + 1)

/-- The room ids the user has joined: `self._user_rooms.get(user_id, set())`
(set iteration order modelled by insertion order; the subsequent sort
makes it relevant only among `created_at` ties). -/
def MemoryStore.userJoinedRooms (s : MemoryStore) (uid : String) : List String :=
  match s.user_rooms.find? (fun kv : String × List String => kv.1 = uid) with
  | some kv => kv.2
  | none => []

/-- Candidate rooms of `list_rooms`: when `user_id` is truthy, only the
rooms the user has joined; otherwise every room. -/
def MemoryStore.listCandidates (s : MemoryStore) (user_id : Option String) :
    List StoredRoom :=
  match user_id with
  | some uid =>
      if uid = "" then s.rooms
      else
        (s.userJoinedRooms uid).filterMap
          (fun rid => s.rooms.find? (fun r => r.room_id = rid))
  | none => s.rooms

/-- Candidates with private rooms of other creators filtered out. -/
def MemoryStore.listFiltered (s : MemoryStore) (user_id : Option String) :
    List StoredRoom :=
  (s.listCandidates user_id).filter
    (fun r => r.visibility ≠ RoomVisibility.ROOM_VISIBILITY_PRIVATE ∨
      pyEqStr r.created_by user_id)

/-- Filtered candidates sorted by `created_at` descending. -/
def MemoryStore.listSorted (s : MemoryStore) (user_id : Option String) :
    List StoredRoom :=
  sortByCreatedDesc (s.listFiltered user_id)

/-- The page start of `list_rooms`: one past the cursor room's position,
or 0 when the cursor is falsy or not found. -/
def MemoryStore.listStart (s : MemoryStore) (user_id : Option String)
    (cursor : Option String) : Nat :=
  match cursor with
  | none => 0
  | some c =>
      if c = "" then 0
      else
        match findRoomIdx c (s.listSorted user_id) with
        | some i => i + 1
        | none => 0

/-- `MemoryStore.list_rooms`. `none` models the `IndexError` the source
raises from `page[-1]` when `len(page) == limit` and the page is empty
(exactly when `limit = 0`). -/
def MemoryStore.list_rooms (s : MemoryStore) (user_id : Option String)
    (limit : Nat) (cursor : Option String) :
    Option (List StoredRoom × Option String) :=
  let page := ((s.listSorted user_id).drop (s.listStart user_id cursor)).take limit
  if page.length = limit then
    match page.getLast? with
    | some r => some (page, some r.room_id)
    | none => none
  else some (page, none)

/-- Python whitespace (`str.strip` / regex `\s`), ASCII range. -/
def pyIsSpaceChar (c : Char) : Bool :=
  c = ' ' || c = '\t' || c = '\n' || c = '\r' || c = Char.ofNat 11 || c = Char.ofNat 12

/-- Drop trailing characters satisfying `p` (Python `rstrip`). -/
def dropTrailing (p : Char → Bool) (l : List Char) : List Char :=
  (l.reverse.dropWhile p).reverse

/-- Lowercase every character of a string (Python `str.lower`, modelled
for the ASCII alphabet). -/
def lowerStr (s : String) : String :=
  String.mk (s.data.map Char.toLower)

/-- Word character of the mention regexes: `\w` (letters, digits, `_`;
modelled for ASCII) or the CJK range `一`-`鿿`. -/
def isWordChar (c : Char) : Bool :=
  c.isAlpha || c.isDigit || c = '_' || (0x4e00 ≤ c.toNat && c.toNat ≤ 0x9fff)

/-- Character class of `_MENTION_RE`'s capture group: word characters
plus hyphen. -/
def isMentionChar (c : Char) : Bool :=
  isWordChar c || c = '-'

/-- Left-to-right scan equivalent to `_MENTION_RE.findall(content)`:
each maximal nonempty run of mention characters directly after an `@` is
one token. The second argument accumulates the token in progress
(reversed), `none` when not inside a token. -/
def scanMentionTokens : List Char → Option (List Char) → List String
  | [], none => []
  | [], some acc => if acc.isEmpty then [] else [String.mk acc.reverse]
  | c :: rest, none =>
      if c = '@' then scanMentionTokens rest (some [])
      else scanMentionTokens rest none
  | c :: rest, some acc =>
      if isMentionChar c then scanMentionTokens rest (some (c :: acc))
      else
        (if acc.isEmpty then [] else [String.mk acc.reverse]) ++
          (if c = '@' then scanMentionTokens rest (some [])
           else scanMentionTokens rest none)

/-- `_MENTION_RE.findall(content)`. -/
def mentionFindall (content : String) : List String :=
  scanMentionTokens content.data none

/-- Case-insensitive literal-pattern test at the head of a char list. -/
def startsWithCI (cs : List Char) (pat : List Char) : Bool :=
  ((cs.take pat.length).map Char.toLower) = pat

/-- Negative lookahead `(?![\w一-鿿])` of `_MENTION_ALL_RE`. -/
def allLookahead (cs : List Char) : Bool :=
  match cs with
  | [] => true
  | c :: _ => !(isWordChar c)

/-- Negative lookbehind `(?<![\w一-鿿])` of `_MENTION_ALL_RE`, applied to
the previous character (`none` at the start of the text). -/
def notWordBefore : Option Char → Bool
  | none => true
  | some q => !(isWordChar q)

/-- Scan for `_MENTION_ALL_RE`: a case-insensitive `@all` or `@everyone`
whose `@` is not preceded by a word character and whose token is not
followed by one. The first argument is the previous character. -/
def hasAllAux : Option Char → List Char → Bool
  | prev, c :: rest =>
      if c == '@' && notWordBefore prev &&
          ((startsWithCI rest ['a', 'l', 'l'] && allLookahead (rest.drop 3)) ||
           (startsWithCI rest ['e', 'v', 'e', 'r', 'y', 'o', 'n', 'e'] &&
             allLookahead (rest.drop 8))) then
        true
      else hasAllAux (some c) rest
  | _, [] => false

/-- `bool(_MENTION_ALL_RE.search(content))`. -/
def mentionAllInText (content : String) : Bool :=
  hasAllAux none content.data

/-- Trailing punctuation stripped by `normalize_mention`. -/
def isTrailPunct (c : Char) : Bool :=
  c = '.' || c = ',' || c = '!' || c = '?' || c = ';' || c = ':'

/-- `llm_dispatcher.normalize_mention`:
`token.strip().lstrip("@").rstrip(".,!?;:").lower()`. -/
def normalize_mention (t : String) : String :=
  let s1 := dropTrailing pyIsSpaceChar (t.data.dropWhile pyIsSpaceChar)
  let s2 := s1.dropWhile (fun c => c = '@')
  let s3 := dropTrailing isTrailPunct s2
  String.mk (s3.map Char.toLower)

/-- The normalized mention tokens (with duplicates and in a fixed scan
order): `client_mentions` and the text-scanned tokens, each normalized,
empty results discarded. The source collects these into a Python set
(`normalized_mentions`); set membership equals membership in this list. -/
def normalizedMentionList (content : String) (client_mentions : List String) :
    List String :=
  ((client_mentions ++ mentionFindall content).map normalize_mention).filter
    (fun x => x ≠ "")

/-- A list is a valid iteration order of the `normalized_mentions` set
iff it enumerates the set's elements exactly once. CPython leaves the
order unspecified (string hashing is randomized per process), so the
order is a parameter everywhere the source iterates over the set. -/
def IsMentionEnum (content : String) (client_mentions : List String)
    (enum : List String) : Prop :=
  enum.Perm (normalizedMentionList content client_mentions).dedup

instance (content : String) (client_mentions enum : List String) :
    Decidable (IsMentionEnum content client_mentions enum) :=
  List.decidablePerm enum (normalizedMentionList content client_mentions).dedup

/-- `display_name.lower().replace(" ", "_")`. -/
def underscoreName (l : LLMConfig) : String :=
  String.mk ((lowerStr l.display_name).data.map (fun c => if c = ' ' then '_' else c))

/-- Last matching element: the value a Python dict comprehension
`{f(llm): llm for llm in llms}` stores under a key hit by `p`. -/
def findLastLLM (p : LLMConfig → Bool) : List LLMConfig → Option LLMConfig
  | [] => none
  | l :: ls =>
      match findLastLLM p ls with
      | some r => some r
      | none => if p l then some l else none

/-- `llm_lookup.get(key)` for the dict union
`{id: ...} | {display_name: ...} | {display_name with underscores: ...}`:
on key collisions the underscored-display index wins over the display
index, which wins over the id index; within one index a later LLM wins. -/
def llmLookup (llms : List LLMConfig) (key : String) : Option LLMConfig :=
  match findLastLLM (fun l => underscoreName l = key) llms with
  | some l => some l
  | none =>
      match findLastLLM (fun l => lowerStr l.display_name = key) llms with
      | some l => some l
      | none => findLastLLM (fun l => lowerStr l.id = key) llms

/-- The `has_mention_all` check: the `@all`/`@everyone` regex on the
text, or a normalized token equal to `all` or `everyone`. -/
def hasMentionAll (content : String) (enum : List String) : Bool :=
  mentionAllInText content ||
    enum.any (fun m => m = "all" || m = "everyone")

/-- One iteration of the matching loop: look the normalized token up
and append the hit unless already matched. -/
def mentionAccStep (llms : List LLMConfig) (acc : List LLMConfig) (m : String) :
    List LLMConfig :=
  match llmLookup llms (lowerStr m) with
  | some llm => if llm ∈ acc then acc else acc ++ [llm]
  | none => acc

/-- `llm_dispatcher.match_llms_from_mentions`. `enum` is the iteration
order of the `normalized_mentions` set (see `IsMentionEnum`). -/
def match_llms_from_mentions (content : String) (room : StoredRoom)
    (enum : List String) : List LLMConfig :=
  if hasMentionAll content enum then room.llms
  else enum.foldl (mentionAccStep room.llms) []

/-- One tool call of a Chat-Provider delta. The `arguments` JSON string
of the source is modelled pre-parsed: `args_ok` is the success of
`json.loads`, and the `arg_*` fields are the `args.get(..., default)`
projections used by `_handle_vote_tool_call` and
`_extract_mention_from_tool_call` (the JSON grammar itself is external
to the claims). -/
structure ToolCall where
  id : String
  name : String
  args_ok : Bool
  arg_poll_id : String
  arg_option_ids : List String
  arg_reason : String
  arg_participant : String
deriving DecidableEq

/-- One streamed delta of the Chat-Provider response. -/
structure ChatDelta where
  content : String
  tool_calls : List ToolCall
  opted_out : Bool
deriving DecidableEq

/-- Outcome of iterating the Chat-Provider stream: either it yields its
deltas and ends normally, or it raises `grpc.RpcError` after yielding
the listed deltas, with the given error detail string. -/
inductive StreamOutcome
  | ok (deltas : List ChatDelta)
  | err (deltas : List ChatDelta) (detail : String)
deriving DecidableEq

/-- `room_pb2.ServerEvent` variants the claims are about. -/
inductive ServerEvent
  | error (code message : String)
  | room_state (room : StoredRoom) (participants : List StoredParticipant)
      (messages : List StoredMessage) (polls : List StoredPoll)
  | message_received (msg : StoredMessage)
  | user_joined (user_id display_name : String)
  | llm_thinking (llm_id reply_to : String)
  | llm_chunk (message_id llm_id content reply_to : String)
  | llm_done (message_id llm_id : String)
  | poll_created (poll : StoredPoll)
  | poll_voted (poll_id option_id : String) (vote : StoredPollVote)
  | poll_closed (poll_id closed_by_id closed_by_name : String)
  | pong
deriving DecidableEq

/-- One iteration of the `for option_id in option_ids` loop of
`_handle_vote_tool_call`: try the vote, and on success set the flag and
append the `poll_voted` broadcast. -/
def voteStep (cfg : LLMConfig) (poll_id reason : String) (now : Nat)
    (st : Bool × MemoryStore × List ServerEvent) (oid : String) :
    Bool × MemoryStore × List ServerEvent :=
  let r := st.2.1.add_vote poll_id oid cfg.id cfg.display_name reason now
  match r.1 with
  | some pov =>
      (true, r.2,
        st.2.2 ++ [ServerEvent.poll_voted pov.1.poll_id pov.2.1.id pov.2.2])
  | none => st

/-- `LLMDispatcher._handle_vote_tool_call`: returns whether any vote was
cast, the updated store, and the `poll_voted` broadcasts (all to the
dispatcher's `room_id`). -/
def handle_vote_tool_call (s : MemoryStore) (cfg : LLMConfig) (tc : ToolCall)
    (now : Nat) : Bool × MemoryStore × List ServerEvent :=
  if !tc.args_ok then (false, s, [])
  else if tc.arg_poll_id = "" ∨ tc.arg_option_ids = [] then (false, s, [])
  else
    tc.arg_option_ids.foldl (voteStep cfg tc.arg_poll_id tc.arg_reason now)
      (false, s, [])

/-- Mutable state of the streaming loop in `call_llm`. -/
structure LoopState where
  store : MemoryStore
  events : List ServerEvent
  chunks : List String
  opted_out : Bool
  pending_mentions : List String
deriving DecidableEq

/-- The `for tc in response.delta.tool_calls` loop of `call_llm`:
`opt_out` sets the flag and breaks; `mention` queues the participant
when the arguments parsed and the name is non-empty; `vote_on_poll`
votes and broadcasts. -/
def processToolCalls (cfg : LLMConfig) (now : Nat) :
    List ToolCall → LoopState → LoopState
  | [], st => st
  | tc :: rest, st =>
      if tc.name = "opt_out" then { st with opted_out := true }
      else if tc.name = "mention" then
        let st' :=
          if tc.args_ok ∧ tc.arg_participant ≠ "" then
            { st with pending_mentions := st.pending_mentions ++ [tc.arg_participant] }
          else st
        processToolCalls cfg now rest st'
      else if tc.name = "vote_on_poll" then
        let r := handle_vote_tool_call st.store cfg tc now
        processToolCalls cfg now rest
          { st with store := r.2.1, events := st.events ++ r.2.2 }
      else processToolCalls cfg now rest st

/-- The `async for response in stub.Chat(request)` loop of `call_llm`:
a delta-level `opted_out` breaks before its tool calls; an `opt_out`
tool call breaks before the delta's content chunk; a non-empty content
chunk is accumulated and broadcast with the call's `response_msg_id`. -/
def processDeltas (cfg : LLMConfig) (msg_id trigger : String) (now : Nat) :
    List ChatDelta → LoopState → LoopState
  | [], st => st
  | d :: rest, st =>
      if d.opted_out then { st with opted_out := true }
      else
        let st1 := processToolCalls cfg now d.tool_calls st
        if st1.opted_out then st1
        else
          let st2 :=
            if d.content ≠ "" then
              { st1 with
                chunks := st1.chunks ++ [d.content]
                events := st1.events ++
                  [ServerEvent.llm_chunk msg_id cfg.id d.content trigger] }
            else st1
          processDeltas cfg msg_id trigger now rest st2

/-- `str.strip()` (ASCII whitespace). -/
def pyStrip (s : String) : String :=
  String.mk (dropTrailing pyIsSpaceChar (s.data.dropWhile pyIsSpaceChar))

/-- Case-insensitive removal of a literal name at the head of the text
(the `re.escape(display_name)` part of the repeated-name pattern). -/
def dropNameCI : List Char → List Char → Option (List Char)
  | [], cs => some cs
  | _ :: _, [] => none
  | n :: ns, c :: cs => if c.toLower = n.toLower then dropNameCI ns cs else none

/-- One application of the pattern `^\s*<name>\s*[:\-]\s*` (IGNORECASE):
`some rest` iff the pattern matched, where `rest` is the text after the
removed prefix. -/
def matchSelfNameOnce (name : List Char) (cs : List Char) : Option (List Char) :=
  match dropNameCI name (cs.dropWhile pyIsSpaceChar) with
  | none => none
  | some r1 =>
      match r1.dropWhile pyIsSpaceChar with
      | c :: r2 => if c = ':' ∨ c = '-' then some (r2.dropWhile pyIsSpaceChar) else none
      | [] => none

/-- The `for _ in range(3)` strip loop of `strip_self_name_prefix`. -/
def stripSelfNameLoop (name : List Char) : Nat → List Char → List Char
  | 0, cs => cs
  | n + 1, cs =>
      match matchSelfNameOnce name cs with
      | some rest => stripSelfNameLoop name n rest
      | none => cs

/-- `llm_dispatcher.strip_self_name_prefix`: remove up to three repeated
leading `<name>:` / `<name> -` prefixes, then `lstrip()`. -/
def stripSelfName (text : String) (display_name : String) : String :=
  if text = "" ∨ display_name = "" then text
  else
    let name := dropTrailing pyIsSpaceChar (display_name.data.dropWhile pyIsSpaceChar)
    if name.isEmpty then text
    else String.mk ((stripSelfNameLoop name 3 text.data).dropWhile pyIsSpaceChar)

/-- Result of one LLM call: the events broadcast to the call's room (in
order), the resulting store, and the message stored by this call, if
any. Events of LLM tasks chain-dispatched via `mention` tool calls
belong to those spawned tasks, not to this call. -/
structure LLMCallResult where
  events : List ServerEvent
  store : MemoryStore
  stored : Option StoredMessage
deriving DecidableEq

/-- `LLMDispatcher.call_llm`. The fresh `uuid4().hex[:16]` streaming id
is the explicit `response_msg_id` argument; the Chat-Provider stream is
the explicit `outcome`. The request payload sent to the provider
(system prompt, tools, history) does not affect any observable this
development states, and is not modelled. `add_message`'s fallback uuid
argument is identified with `response_msg_id`: the source would only
draw it when `response_msg_id` is falsy, which a `uuid4` hex id never
is. -/
def call_llm (s : MemoryStore) (room_id : String) (cfg : LLMConfig)
    (trigger_msg_id : String) (outcome : StreamOutcome)
    (response_msg_id : String) (now : Nat) : LLMCallResult :=
  match s.get_room room_id with
  | none => ⟨[], s, none⟩
  | some _ =>
      let st0 : LoopState :=
        ⟨s, [ServerEvent.llm_thinking cfg.id trigger_msg_id], [], false, []⟩
      match outcome with
      | StreamOutcome.err deltas detail =>
          let st := processDeltas cfg response_msg_id trigger_msg_id now deltas st0
          if st.opted_out then
            ⟨st.events ++ [ServerEvent.llm_done response_msg_id cfg.id], st.store, none⟩
          else
            ⟨st.events ++
              [ServerEvent.error "LLM_ERROR"
                ("Error from " ++ cfg.display_name ++ ": " ++ detail)],
              st.store, none⟩
      | StreamOutcome.ok deltas =>
          let st := processDeltas cfg response_msg_id trigger_msg_id now deltas st0
          if st.opted_out then
            ⟨st.events ++ [ServerEvent.llm_done response_msg_id cfg.id], st.store, none⟩
          else
            let final := stripSelfName (String.join st.chunks) cfg.display_name
            if pyStrip final ≠ "" then
              let r := st.store.add_message room_id cfg.id cfg.display_name
                ParticipantType.LLM final (some trigger_msg_id) none
                (some response_msg_id) response_msg_id now
              ⟨st.events ++ [ServerEvent.llm_done response_msg_id cfg.id],
                r.2, some r.1⟩
            else
              ⟨st.events ++ [ServerEvent.llm_done response_msg_id cfg.id],
                st.store, none⟩

/-- One tool call of the poll-voting loop: only `vote_on_poll` acts (a
non-mandatory `opt_out` is merely logged). -/
def pollToolStep (cfg : LLMConfig) (now : Nat) (acc : LoopState) (tc : ToolCall) :
    LoopState :=
  if tc.name = "vote_on_poll" then
    let r := handle_vote_tool_call acc.store cfg tc now
    { acc with store := r.2.1, events := acc.events ++ r.2.2 }
  else acc

/-- The streaming loop of `call_llm_for_poll`: only `vote_on_poll` tool
calls act, nothing breaks the loop, and content chunks stream as in
`call_llm`. -/
def processPollDeltas (cfg : LLMConfig) (msg_id trigger : String) (now : Nat) :
    List ChatDelta → LoopState → LoopState
  | [], st => st
  | d :: rest, st =>
      let st1 := d.tool_calls.foldl (pollToolStep cfg now) st
      let st2 :=
        if d.content ≠ "" then
          { st1 with
            chunks := st1.chunks ++ [d.content]
            events := st1.events ++
              [ServerEvent.llm_chunk msg_id cfg.id d.content trigger] }
        else st1
      processPollDeltas cfg msg_id trigger now rest st2

/-- `LLMDispatcher.call_llm_for_poll`. On a provider stream error the
source logs and returns: no error event is broadcast and nothing is
stored. On normal completion it stores non-empty content and always
broadcasts `llm_done`. -/
def call_llm_for_poll (s : MemoryStore) (room_id : String) (cfg : LLMConfig)
    (trigger_msg_id : String) (outcome : StreamOutcome)
    (response_msg_id : String) (now : Nat) : LLMCallResult :=
  match s.get_room room_id with
  | none => ⟨[], s, none⟩
  | some _ =>
      let st0 : LoopState :=
        ⟨s, [ServerEvent.llm_thinking cfg.id trigger_msg_id], [], false, []⟩
      match outcome with
      | StreamOutcome.err deltas _ =>
          let st := processPollDeltas cfg response_msg_id trigger_msg_id now deltas st0
          ⟨st.events, st.store, none⟩
      | StreamOutcome.ok deltas =>
          let st := processPollDeltas cfg response_msg_id trigger_msg_id now deltas st0
          let final := stripSelfName (String.join st.chunks) cfg.display_name
          if pyStrip final ≠ "" then
            let r := st.store.add_message room_id cfg.id cfg.display_name
              ParticipantType.LLM final (some trigger_msg_id) none
              (some response_msg_id) response_msg_id now
            ⟨st.events ++ [ServerEvent.llm_done response_msg_id cfg.id],
              r.2, some r.1⟩
          else
            ⟨st.events ++ [ServerEvent.llm_done response_msg_id cfg.id],
              st.store, none⟩

/-- Per-stream state of `session.StreamHandler`: the fields populated by
the first `join` frame (`None` until then). -/
structure HandlerState where
  room_id : Option String
  user_id : Option String
  display_name : Option String
  role : Role
deriving DecidableEq

/-- A fresh handler (`StreamHandler.__init__`). -/
def HandlerState.init : HandlerState :=
  ⟨none, none, none, Role.ROLE_UNSPECIFIED⟩

/-- Python truthiness of an `Optional[str]` handler field. -/
def pyTruthy (o : Option String) : Bool :=
  match o with
  | some s => s ≠ ""
  | none => false

/-- `self._display_name or "Unknown"`. -/
def HandlerState.nameOrUnknown (h : HandlerState) : String :=
  match h.display_name with
  | some d => if d = "" then "Unknown" else d
  | none => "Unknown"

/-- Where an event produced by a session handler goes: the handler's own
outbound queue (`enqueue`), every handler registered to a room
(`Registry.broadcast`), or every such handler except one user
(`Registry.broadcast_except`). -/
inductive EventTarget
  | toSelf
  | toRoom (room_id : String)
  | toRoomExcept (room_id : String) (exclude_user_id : String)
deriving DecidableEq

/-- The Registry's handler membership, as registered (room, user) pairs. -/
abbrev Registry := List (String × String)

/-- `room_pb2.JoinRoom`. -/
structure JoinRoom where
  room_id : String
  user_id : String
  display_name : String
  role : Role
  title : String
  avatar : String
deriving DecidableEq

/-- `room_pb2.SendMessage`. -/
structure SendMessage where
  content : String
  reply_to : Option String
  mentions : List String
deriving DecidableEq

/-- `room_pb2.CastVote`. -/
structure CastVote where
  poll_id : String
  option_ids : List String
  reason : String
deriving DecidableEq

/-- `room_pb2.ClosePoll`. -/
structure ClosePoll where
  poll_id : String
deriving DecidableEq

/-- Result of handling one client frame: the new handler state, store,
registry, and the emitted events with their targets, in order. -/
structure SessionStep where
  handler : HandlerState
  store : MemoryStore
  registry : Registry
  events : List (EventTarget × ServerEvent)
deriving DecidableEq

/-- `StreamHandler._handle_join`. The handler fields are assigned from
the frame before the room-existence check; on an unknown room the
handler emits `error{ROOM_NOT_FOUND}` to itself and returns without
persisting a participant or registering with the Registry. -/
def handle_join (_h : HandlerState) (s : MemoryStore) (reg : Registry)
    (j : JoinRoom) (now : Nat) : SessionStep :=
  let h' : HandlerState := ⟨some j.room_id, some j.user_id, some j.display_name, j.role⟩
  match s.get_room j.room_id with
  | none =>
      ⟨h', s, reg,
        [(EventTarget.toSelf,
          ServerEvent.error "ROOM_NOT_FOUND"
            ("Room " ++ j.room_id ++ " does not exist"))]⟩
  | some room =>
      let r1 := s.add_participant j.room_id j.user_id j.display_name j.role
        j.title j.avatar now
      let s1 := r1.2
      let reg1 := reg ++ [(j.room_id, j.user_id)]
      let hist :=
        match s1.load_history j.room_id 50 none with
        | some pr => pr.1
        | none => []
      let parts := s1.get_participants j.room_id
      let polls := s1.list_room_polls j.room_id true
      ⟨h', s1, reg1,
        [(EventTarget.toSelf, ServerEvent.room_state room parts hist polls),
         (EventTarget.toRoomExcept j.room_id j.user_id,
           ServerEvent.user_joined j.user_id j.display_name)]⟩

/-- `StreamHandler._handle_message`. Guarded only by truthiness of the
handler's `room_id` and `user_id` fields; stores the message, broadcasts
`message_received` to the handler's room, then dispatches mentions
(which only spawns fire-and-forget LLM tasks, so it contributes no
synchronous events here). -/
def handle_message (h : HandlerState) (s : MemoryStore) (reg : Registry)
    (send : SendMessage) (fresh_msg_id : String) (now : Nat) : SessionStep :=
  if !(pyTruthy h.room_id) || !(pyTruthy h.user_id) then ⟨h, s, reg, []⟩
  else
    let rid := h.room_id.getD ""
    let uid := h.user_id.getD ""
    let r := s.add_message rid uid h.nameOrUnknown ParticipantType.HUMAN
      send.content send.reply_to none none fresh_msg_id now
    ⟨h, r.2, reg, [(EventTarget.toRoom rid, ServerEvent.message_received r.1)]⟩

/-- `StreamHandler._handle_cast_vote`: applies `add_vote` per listed
option id, keyed only by the frame's `poll_id`; each accepted vote is
broadcast as `poll_voted` to the handler's own room. -/
def handle_cast_vote (h : HandlerState) (s : MemoryStore) (reg : Registry)
    (vote : CastVote) (now : Nat) : SessionStep :=
  if !(pyTruthy h.room_id) || !(pyTruthy h.user_id) then ⟨h, s, reg, []⟩
  else
    let rid := h.room_id.getD ""
    let uid := h.user_id.getD ""
    let r :=
      vote.option_ids.foldl
        (fun acc oid =>
          let rr := acc.1.add_vote vote.poll_id oid uid h.nameOrUnknown
            vote.reason now
          match rr.1 with
          | some pov =>
              (rr.2, acc.2 ++
                [(EventTarget.toRoom rid,
                  ServerEvent.poll_voted pov.1.poll_id pov.2.1.id pov.2.2)])
          | none => (acc.1, acc.2))
        (s, ([] : List (EventTarget × ServerEvent)))
    ⟨h, r.1, reg, r.2⟩

/-- `StreamHandler._handle_close_poll`: closes the poll found by the
frame's `poll_id` alone and broadcasts `poll_closed` to the handler's
own room. -/
def handle_close_poll (h : HandlerState) (s : MemoryStore) (reg : Registry)
    (close : ClosePoll) (now : Nat) : SessionStep :=
  if !(pyTruthy h.room_id) || !(pyTruthy h.user_id) then ⟨h, s, reg, []⟩
  else
    let rid := h.room_id.getD ""
    let uid := h.user_id.getD ""
    let r := s.close_poll close.poll_id now
    match r.1 with
    | none => ⟨h, r.2, reg, []⟩
    | some poll =>
        ⟨h, r.2, reg,
          [(EventTarget.toRoom rid,
            ServerEvent.poll_closed poll.poll_id uid h.nameOrUnknown)]⟩

/-- LLM ids are pairwise distinct within a room (spec §3 room invariant). -/
def roomIdsUnique (r : StoredRoom) : Prop :=
  (r.llms.map LLMConfig.id).Nodup

/-- Every room of the store satisfies the LLM-id uniqueness invariant. -/
def StoreLLMInv (s : MemoryStore) : Prop :=
  ∀ r ∈ s.rooms, roomIdsUnique r

/-! Concrete fixtures used by witnesses and counterexamples. -/

/-- Fixture poll for the single-choice claim: voter `v1` already voted
on option `oB` of an open single-choice poll. -/
def C1poll : StoredPoll :=
  ⟨"p1", "r1", "u1", "Alice", ParticipantType.HUMAN, "Q",
    [⟨"oA", "A", "", []⟩, ⟨"oB", "B", "", [⟨"v1", "Vic", "", 1⟩]⟩],
    false, false, PollStatus.POLL_OPEN, 0, none, false⟩

/-- Fixture store holding `C1poll`. -/
def C1store : MemoryStore := ⟨[], [], [], [], [C1poll], []⟩

/-- The vote recorded in the single-choice witness run. -/
def C1vote : StoredPollVote := ⟨"v1", "Vic", "", 2⟩

/-- Option `oA` after the witness vote. -/
def C1optA : StoredPollOption := ⟨"oA", "A", "", [C1vote]⟩

/-- `C1poll` after the witness vote: the new vote on `oA`, the prior
vote on `oB` removed. -/
def C1poll2 : StoredPoll :=
  ⟨"p1", "r1", "u1", "Alice", ParticipantType.HUMAN, "Q",
    [C1optA, ⟨"oB", "B", "", []⟩],
    false, false, PollStatus.POLL_OPEN, 0, none, false⟩

/-- `C1store` after the witness vote. -/
def C1store2 : MemoryStore := ⟨[], [], [], [], [C1poll2], []⟩

/-- Fixture messages for the pagination claim (distinct sort keys in
append order). -/
def C2msgs : List StoredMessage :=
  [⟨"m1", "r1", "u1", "U", ParticipantType.HUMAN, "one", none, 1,
      make_sort_key 1 "m1", none⟩,
   ⟨"m2", "r1", "u1", "U", ParticipantType.HUMAN, "two", none, 2,
      make_sort_key 2 "m2", none⟩,
   ⟨"m3", "r1", "u1", "U", ParticipantType.HUMAN, "three", none, 3,
      make_sort_key 3 "m3", none⟩]

/-- Fixture store with one message in room `r1`, for the
`load_history` crash counterexample. -/
def C2storeX : MemoryStore :=
  ⟨[⟨"r1", "Room", 0, "alice", [], "", RoomVisibility.ROOM_VISIBILITY_PUBLIC⟩],
    [("r1", [⟨"m1", "r1", "u1", "U", ParticipantType.HUMAN, "one", none, 1,
      make_sort_key 1 "m1", none⟩])], [], [], [], []⟩

/-- Fixture store for the room-listing claim: one public room created by
`alice` that user `bob` never joined. -/
def C3store : MemoryStore :=
  ⟨[⟨"r1", "Room", 7, "alice", [], "", RoomVisibility.ROOM_VISIBILITY_PUBLIC⟩],
    [("r1", [])], [], [], [], []⟩

/-- Fixture store for the listing witness: two public rooms. -/
def C3storeW : MemoryStore :=
  ⟨[⟨"r1", "One", 1, "alice", [], "", RoomVisibility.ROOM_VISIBILITY_PUBLIC⟩,
    ⟨"r2", "Two", 2, "alice", [], "", RoomVisibility.ROOM_VISIBILITY_PUBLIC⟩],
    [("r1", []), ("r2", [])], [], [], [], []⟩

/-- Fixture LLM config for the unified-message-id witness. -/
def C4cfg : LLMConfig := ⟨"claude", "model-x", "", "Claude", "", 0, ""⟩

/-- Fixture store with one room for the dispatcher witnesses. -/
def C4store : MemoryStore :=
  ⟨[⟨"r1", "Room", 0, "alice", [C4cfg], "", RoomVisibility.ROOM_VISIBILITY_PUBLIC⟩],
    [("r1", [])], [], [], [], []⟩

/-- Fixture LLMs for the mention claims. -/
def C5alice : LLMConfig := ⟨"alice", "m", "", "Alice", "", 0, ""⟩

/-- Second fixture LLM for the mention claims. -/
def C5bob : LLMConfig := ⟨"bob", "m", "", "Bob", "", 0, ""⟩

/-- Fixture room with the two mention-claim LLMs. -/
def C5room : StoredRoom :=
  ⟨"r1", "Room", 0, "alice", [C5alice, C5bob], "",
    RoomVisibility.ROOM_VISIBILITY_PUBLIC⟩

/-- Fixture LLM config for the provider-error claims. -/
def C7cfg : LLMConfig := ⟨"gemini", "model-y", "", "Gemini", "", 0, ""⟩

/-- Fixture store with one room for the provider-error claims. -/
def C7store : MemoryStore :=
  ⟨[⟨"r1", "Room", 0, "alice", [C7cfg], "", RoomVisibility.ROOM_VISIBILITY_PUBLIC⟩],
    [("r1", [])], [], [], [], []⟩

/-- Fixture LLM config with id `a` for the id-uniqueness claim. -/
def C8cfg : LLMConfig := ⟨"a", "m", "", "Ay", "", 0, ""⟩

/-- Fixture open poll for the close-poll claim. -/
def C9poll : StoredPoll :=
  ⟨"p1", "r1", "u1", "U", ParticipantType.HUMAN, "q",
    [⟨"o1", "A", "", []⟩], false, false, PollStatus.POLL_OPEN, 0, none, false⟩

/-- Fixture store holding `C9poll`. -/
def C9store : MemoryStore := ⟨[], [], [], [], [C9poll], []⟩

/-- Fixture open poll living in room `rB` for the cross-room vote claim. -/
def C10poll : StoredPoll :=
  ⟨"pX", "rB", "u9", "Nine", ParticipantType.HUMAN, "q",
    [⟨"o1", "A", "", []⟩, ⟨"o2", "B", "", []⟩],
    false, false, PollStatus.POLL_OPEN, 0, none, false⟩

/-- Fixture store holding `C10poll` (and the handler's own room `rA`). -/
def C10store : MemoryStore :=
  ⟨[⟨"rA", "RoomA", 0, "alice", [], "", RoomVisibility.ROOM_VISIBILITY_PUBLIC⟩,
    ⟨"rB", "RoomB", 0, "nina", [], "", RoomVisibility.ROOM_VISIBILITY_PUBLIC⟩],
    [("rA", []), ("rB", [])], [], [], [C10poll], [("rB", ["pX"])]⟩

/-- Fixture handler joined to room `rA` as user `u1`. -/
def C10handler : HandlerState := ⟨some "rA", some "u1", some "Uma", Role.MEMBER⟩

/-!
## Theorems

One theorem per claim (with witnesses for theorems carrying hypotheses
and counterexamples for corrected claims), preceded by the shared
helper lemmas.
-/

/-- C9: refuted as stated. Closing the already-closed poll `p1` a second
time, at time 2, returns the poll with `closed_at` restamped to 2, not
in the same state as after the first close at time 1. -/
theorem C9_counterexample :
    (((C9store.close_poll "p1" 1).2.close_poll "p1" 2).1.map StoredPoll.closed_at
      = some (some 2)) ∧
    ((C9store.close_poll "p1" 1).1.map StoredPoll.closed_at = some (some 1)) ∧
    ((C9store.close_poll "p1" 1).2.close_poll "p1" 2).1 ≠
      (C9store.close_poll "p1" 1).1 := by
  decide

/-- C9 (amended): `close_poll` on an already-closed poll keeps the
status closed — a closed poll never reopens, and votes on it are
rejected — but restamps `closed_at` with the time of the second call;
the second call returns the identical state only when its timestamp
equals the first one. -/
theorem C9_close_poll_one_way (p : StoredPoll) (t1 t2 : Nat) :
    (MemoryStore.closePollRecord p t1).status = PollStatus.POLL_CLOSED ∧
    MemoryStore.closePollRecord (MemoryStore.closePollRecord p t1) t2 =
      { MemoryStore.closePollRecord p t1 with closed_at := some t2 } ∧
    MemoryStore.closePollRecord (MemoryStore.closePollRecord p t1) t1 =
      MemoryStore.closePollRecord p t1 ∧
    (∀ oid vid vn rsn now,
      MemoryStore.addVoteToPoll (MemoryStore.closePollRecord p t1) oid vid vn rsn now
        = none) := by
  refine ⟨rfl, rfl, rfl, ?_⟩
  intro oid vid vn rsn now
  simp [MemoryStore.addVoteToPoll, MemoryStore.closePollRecord]

theorem mem_replaceRoom (x : StoredRoom) (qs : List StoredRoom) (rid : String)
    (r' : StoredRoom) (hx : x ∈ MemoryStore.replaceRoom qs rid r') :
    x = r' ∨ x ∈ qs := by
  induction qs with
  | nil => simp [MemoryStore.replaceRoom] at hx
  | cons q qs ih =>
      by_cases hq : q.room_id = rid
      · simp only [MemoryStore.replaceRoom, if_pos hq, List.mem_cons] at hx
        rcases hx with h | h
        · exact Or.inl h
        · exact Or.inr (List.mem_cons_of_mem _ h)
      · simp only [MemoryStore.replaceRoom, if_neg hq, List.mem_cons] at hx
        rcases hx with h | h
        · exact Or.inr (by simp [h])
        · rcases ih h with h2 | h2
          · exact Or.inl h2
          · exact Or.inr (List.mem_cons_of_mem _ h2)

theorem patchFirst_map_id (ls : List LLMConfig) (lid : String) (p : MemoryStore.LLMPatch) :
    (MemoryStore.patchFirst ls lid p).1.map LLMConfig.id = ls.map LLMConfig.id := by
  induction ls with
  | nil => rfl
  | cons l ls ih =>
      by_cases hl : l.id = lid
      · simp [MemoryStore.patchFirst, hl, MemoryStore.applyPatch]
      · simp [MemoryStore.patchFirst, hl, ih]

/-- C8: refuted as stated. `create_room` copies its `llms` argument
without de-duplication: creating a room from two configs that share the
id `a` yields a room whose LLM ids are not pairwise distinct. -/
theorem C8_counterexample :
    (MemoryStore.init.create_room "r1" "Room" "alice" [C8cfg, C8cfg] ""
        RoomVisibility.ROOM_VISIBILITY_PUBLIC 0).get_room "r1" =
      some ⟨"r1", "Room", 0, "alice", [C8cfg, C8cfg], "",
        RoomVisibility.ROOM_VISIBILITY_PUBLIC⟩ ∧
    ¬ (([C8cfg, C8cfg].map LLMConfig.id).Nodup) := by
  constructor
  · decide
  · decide

/-- C8 (amended): in a store whose rooms all have pairwise-distinct LLM
ids, the invariant is preserved by every room-mutating operation —
`create_room` preserves it whenever its initial `llms` argument itself
has distinct ids (the source does not enforce this), `add_llm` with an
id already present fails and leaves the store unchanged, and
`add_llm`, `update_llm` and `remove_llm` preserve the invariant. -/
theorem C8_llm_ids_unique (s : MemoryStore) (hs : StoreLLMInv s) :
    (∀ rid nm cb llms d vis now, (llms.map LLMConfig.id).Nodup →
      StoreLLMInv (s.create_room rid nm cb llms d vis now)) ∧
    (∀ rid llm, StoreLLMInv (s.add_llm rid llm).2) ∧
    (∀ rid llm room, s.get_room rid = some room →
      llm.id ∈ room.llms.map LLMConfig.id → s.add_llm rid llm = (false, s)) ∧
    (∀ rid lid patch, StoreLLMInv (s.update_llm rid lid patch).2) ∧
    (∀ rid lid, StoreLLMInv (s.remove_llm rid lid).2) := by
  refine ⟨?_, ?_, ?_, ?_, ?_⟩
  · intro rid nm cb llms d vis now hnd r hr
    simp only [MemoryStore.create_room, List.mem_append, List.mem_singleton] at hr
    rcases hr with h | h
    · exact hs r h
    · subst h; exact hnd
  · intro rid llm
    cases hf : s.get_room rid with
    | none => simpa [MemoryStore.add_llm, hf] using hs
    | some room =>
        cases hany : room.llms.any (fun l => l.id = llm.id) with
        | true => simpa [MemoryStore.add_llm, hf, hany] using hs
        | false =>
            simp only [MemoryStore.add_llm, hf, hany]
            intro r hr
            rcases mem_replaceRoom r s.rooms rid _ hr with h | h
            · subst h
              have hroom : roomIdsUnique room :=
                hs room (List.mem_of_find?_eq_some hf)
              have hnotin : llm.id ∉ room.llms.map LLMConfig.id := by
                intro hmem
                rcases List.mem_map.mp hmem with ⟨x, hx, hxid⟩
                have hx2 : room.llms.any (fun l => l.id = llm.id) = true :=
                  List.any_eq_true.mpr ⟨x, hx, by simpa using hxid⟩
                rw [hany] at hx2
                exact Bool.false_ne_true hx2
              have hdisj : (room.llms.map LLMConfig.id).Disjoint [llm.id] := by
                intro a ha hb
                rw [List.mem_singleton] at hb
                subst hb
                exact hnotin ha
              simp only [roomIdsUnique, List.map_append, List.map_cons,
                List.map_nil, List.nodup_append] at hroom ⊢
              exact ⟨hroom, List.nodup_singleton _, hdisj⟩
            · exact hs r h
  · intro rid llm room hf hmem
    have hany : room.llms.any (fun l => l.id = llm.id) = true := by
      rcases List.mem_map.mp hmem with ⟨x, hx, hxid⟩
      exact List.any_eq_true.mpr ⟨x, hx, by simpa using hxid⟩
    simp [MemoryStore.add_llm, hf, hany]
  · intro rid lid patch
    cases hf : s.get_room rid with
    | none => simpa [MemoryStore.update_llm, hf] using hs
    | some room =>
        cases hp : (MemoryStore.patchFirst room.llms lid patch).2 with
        | none => simpa [MemoryStore.update_llm, hf, hp] using hs
        | some upd =>
            simp only [MemoryStore.update_llm, hf, hp]
            intro r hr
            rcases mem_replaceRoom r s.rooms rid _ hr with h | h
            · subst h
              have hroom : roomIdsUnique room :=
                hs room (List.mem_of_find?_eq_some hf)
              simpa [roomIdsUnique, patchFirst_map_id] using hroom
            · exact hs r h
  · intro rid lid
    cases hf : s.get_room rid with
    | none => simpa [MemoryStore.remove_llm, hf] using hs
    | some room =>
        simp only [MemoryStore.remove_llm, hf]
        intro r hr
        rcases mem_replaceRoom r s.rooms rid _ hr with h | h
        · subst h
          have hroom : roomIdsUnique room :=
            hs room (List.mem_of_find?_eq_some hf)
          exact hroom.sublist (List.Sublist.map _ (List.filter_sublist _))
        · exact hs r h

/-- Witness for `C8_llm_ids_unique` at the empty store. -/
theorem C8_llm_ids_unique_witness :
    StoreLLMInv MemoryStore.init ∧
    ((∀ rid nm cb llms d vis now, (llms.map LLMConfig.id).Nodup →
      StoreLLMInv (MemoryStore.init.create_room rid nm cb llms d vis now)) ∧
    (∀ rid llm, StoreLLMInv (MemoryStore.init.add_llm rid llm).2) ∧
    (∀ rid llm room, MemoryStore.init.get_room rid = some room →
      llm.id ∈ room.llms.map LLMConfig.id →
      MemoryStore.init.add_llm rid llm = (false, MemoryStore.init)) ∧
    (∀ rid lid patch, StoreLLMInv (MemoryStore.init.update_llm rid lid patch).2) ∧
    (∀ rid lid, StoreLLMInv (MemoryStore.init.remove_llm rid lid).2)) :=
  ⟨by intro r hr; simp [MemoryStore.init] at hr,
   C8_llm_ids_unique MemoryStore.init (by intro r hr; simp [MemoryStore.init] at hr)⟩

theorem filter_voter_of_filter_ne (v : String) (l : List StoredPollVote) :
    (l.filter (fun w => w.voter_id ≠ v)).filter (fun w => w.voter_id = v) = [] := by
  induction l with
  | nil => rfl
  | cons w t ih =>
      by_cases h : w.voter_id = v
      · simp [List.filter_cons, h, ih]
      · simp [List.filter_cons, h, ih]

theorem voterVotes_cleanOption (v : String) (o : StoredPollOption) :
    voterVotes v (MemoryStore.cleanOption v o) = [] := by
  simp [voterVotes, MemoryStore.cleanOption, filter_voter_of_filter_ne]

theorem votes_sum_cleaned (v : String) (os : List StoredPollOption) :
    ((os.map (MemoryStore.cleanOption v)).map
      (fun o => (voterVotes v o).length)).sum = 0 := by
  induction os with
  | nil => rfl
  | cons o os ih =>
      rw [List.map_cons, List.map_cons, List.sum_cons, voterVotes_cleanOption]
      simpa using ih

theorem voteOptions_cons_pos (v oid : String) (vote : StoredPollVote)
    (o0 : StoredPollOption) (os : List StoredPollOption) (hid : o0.id = oid) :
    MemoryStore.voteOptions v oid false vote (o0 :: os) =
      { MemoryStore.cleanOption v o0 with
        votes := (MemoryStore.cleanOption v o0).votes ++ [vote] } ::
        os.map (MemoryStore.cleanOption v) := by
  simp [MemoryStore.voteOptions, hid]

theorem voteOptions_cons_neg (v oid : String) (vote : StoredPollVote)
    (o0 : StoredPollOption) (os : List StoredPollOption) (hid : ¬ o0.id = oid) :
    MemoryStore.voteOptions v oid false vote (o0 :: os) =
      MemoryStore.cleanOption v o0 :: MemoryStore.voteOptions v oid false vote os := by
  simp [MemoryStore.voteOptions, hid]

theorem voteOptions_count (v oid : String) (vote : StoredPollVote)
    (hv : vote.voter_id = v) :
    ∀ (os : List StoredPollOption) (o : StoredPollOption),
      os.find? (fun x => x.id = oid) = some o →
      o.votes.any (fun w => w.voter_id = v) = false →
      ((MemoryStore.voteOptions v oid false vote os).map
          (fun x => (voterVotes v x).length)).sum = 1 ∧
      ∀ x ∈ MemoryStore.voteOptions v oid false vote os,
        voterVotes v x ≠ [] → x.id = oid := by
  intro os
  induction os with
  | nil => intro o h _; simp at h
  | cons o0 os ih =>
      intro o hfind hany
      by_cases hid : o0.id = oid
      · rw [List.find?_cons_of_pos _ (by simpa using hid)] at hfind
        have ho : o0 = o := Option.some_injective _ hfind
        subst ho
        rw [voteOptions_cons_pos v oid vote o0 os hid]
        have hclean := voterVotes_cleanOption v o0
        simp only [voterVotes] at hclean
        have hhead : voterVotes v
            { MemoryStore.cleanOption v o0 with
              votes := (MemoryStore.cleanOption v o0).votes ++ [vote] } = [vote] := by
          simp only [voterVotes, List.filter_append]
          rw [hclean]
          simp [hv]
        constructor
        · rw [List.map_cons, List.sum_cons, hhead, votes_sum_cleaned]
          rfl
        · intro x hx
          rcases List.mem_cons.mp hx with hx | hx
          · intro _
            subst hx
            simpa [MemoryStore.cleanOption] using hid
          · rcases List.mem_map.mp hx with ⟨y, _, hy⟩
            intro hne
            exact absurd (by rw [← hy]; exact voterVotes_cleanOption v y) hne
      · rw [List.find?_cons_of_neg _ (by simpa using hid)] at hfind
        rcases ih o hfind hany with ⟨ihsum, ihmem⟩
        rw [voteOptions_cons_neg v oid vote o0 os hid]
        constructor
        · rw [List.map_cons, List.sum_cons, voterVotes_cleanOption]
          simpa using ihsum
        · intro x hx
          rcases List.mem_cons.mp hx with hx | hx
          · intro hne
            exact absurd (by rw [hx]; exact voterVotes_cleanOption v o0) hne
          · exact ihmem x hx

theorem addVoteToPoll_elim (p : StoredPoll) (oid vid vn rsn : String) (now : Nat)
    (p' : StoredPoll) (o' : StoredPollOption) (v' : StoredPollVote)
    (h : MemoryStore.addVoteToPoll p oid vid vn rsn now = some (p', o', v')) :
    p.status = PollStatus.POLL_OPEN ∧
    v' = ⟨vid, vn, rsn, now⟩ ∧
    p' = { p with options :=
      MemoryStore.voteOptions vid oid p.allow_multiple ⟨vid, vn, rsn, now⟩ p.options } ∧
    ∃ o, p.options.find? (fun x => x.id = oid) = some o ∧
      o.votes.any (fun w => w.voter_id = vid) = false := by
  unfold MemoryStore.addVoteToPoll at h
  split at h
  · exact absurd h (by simp)
  · next hst =>
      have hopen : p.status = PollStatus.POLL_OPEN := not_not.mp hst
      split at h
      · exact absurd h (by simp)
      · next o hfind =>
          split at h
          · exact absurd h (by simp)
          · next hany =>
              simp only [Option.some.injEq, Prod.mk.injEq] at h
              exact ⟨hopen, h.2.2.symm, h.1.symm, o, hfind, by simpa using hany⟩

theorem get_poll_replacePoll (qs : List StoredPoll) (pid : String) (p' : StoredPoll)
    (hsome : ∃ q, qs.find? (fun x => x.poll_id = pid) = some q)
    (hp : p'.poll_id = pid) :
    (MemoryStore.replacePoll qs pid p').find? (fun x => x.poll_id = pid) = some p' := by
  induction qs with
  | nil => rcases hsome with ⟨q, hq⟩; simp at hq
  | cons q qs ih =>
      by_cases hq : q.poll_id = pid
      · rw [show MemoryStore.replacePoll (q :: qs) pid p' = p' :: qs from by
          simp [MemoryStore.replacePoll, hq]]
        exact List.find?_cons_of_pos _ (by simpa using hp)
      · rcases hsome with ⟨w, hw⟩
        rw [List.find?_cons_of_neg _ (by simpa using hq)] at hw
        rw [show MemoryStore.replacePoll (q :: qs) pid p' =
            q :: MemoryStore.replacePoll qs pid p' from by
          simp [MemoryStore.replacePoll, hq]]
        rw [List.find?_cons_of_neg _ (by simpa using hq)]
        exact ih ⟨w, hw⟩

/-- C1: confirmed. Whenever `add_vote(poll, option_k, v)` succeeds on a
poll with `allow_multiple = false`, the resulting poll carries exactly
one vote by voter `v` across all options, every option holding a vote
by `v` has id `option_k`, and the resulting poll is what the store now
holds under the poll id. -/
theorem C1_single_choice (s : MemoryStore) (pid oid vid vn rsn : String)
    (now : Nat) (p' : StoredPoll) (o' : StoredPollOption) (v' : StoredPollVote)
    (s' : MemoryStore)
    (h : s.add_vote pid oid vid vn rsn now = (some (p', o', v'), s'))
    (hm : p'.allow_multiple = false) :
    p'.votesBy vid = 1 ∧
    (∀ x ∈ p'.options, voterVotes vid x ≠ [] → x.id = oid) ∧
    s'.get_poll pid = some p' := by
  unfold MemoryStore.add_vote at h
  split at h
  · exact absurd h (by simp)
  · next p hf =>
      split at h
      · exact absurd h (by simp)
      · next r hv =>
          simp only [Prod.mk.injEq, Option.some.injEq] at h
          obtain ⟨hr, hs'⟩ := h
          subst hr
          obtain ⟨hst, hvv, hpp, o, hfind, hany⟩ :=
            addVoteToPoll_elim p oid vid vn rsn now p' o' v' hv
          have hall : p.allow_multiple = false := by
            rw [hpp] at hm; exact hm
          have hcount := voteOptions_count vid oid ⟨vid, vn, rsn, now⟩ rfl
            p.options o hfind hany
          rw [hall] at hpp
          refine ⟨?_, ?_, ?_⟩
          · rw [hpp]
            simpa [StoredPoll.votesBy] using hcount.1
          · intro x hx
            rw [hpp] at hx
            exact hcount.2 x hx
          · rw [← hs']
            have hpid : p'.poll_id = pid := by
              have hfs := List.find?_some hf
              have hppid : p.poll_id = pid := by simpa using hfs
              rw [hpp]; exact hppid
            exact get_poll_replacePoll s.polls pid p' ⟨p, hf⟩ hpid

/-- Witness for `C1_single_choice`: voter `v1`, holding a vote on `oB`,
votes on `oA` of the single-choice poll `p1`; afterwards the only vote
by `v1` is on `oA`. -/
theorem C1_single_choice_witness :
    (C1store.add_vote "p1" "oA" "v1" "Vic" "" 2 =
      (some (C1poll2, C1optA, C1vote), C1store2)) ∧
    C1poll2.allow_multiple = false ∧
    (C1poll2.votesBy "v1" = 1 ∧
     (∀ x ∈ C1poll2.options, voterVotes "v1" x ≠ [] → x.id = "oA") ∧
     C1store2.get_poll "p1" = some C1poll2) :=
  ⟨by decide, by decide,
   C1_single_choice C1store "p1" "oA" "v1" "Vic" "" 2 C1poll2 C1optA C1vote
     C1store2 (by decide) (by decide)⟩

theorem add_vote_success_parts (s : MemoryStore) (pid oid vid vn rsn : String)
    (now : Nat) (p' : StoredPoll) (o' : StoredPollOption) (v' : StoredPollVote)
    (h1 : (s.add_vote pid oid vid vn rsn now).1 = some (p', o', v')) :
    (s.add_vote pid oid vid vn rsn now).2 =
      { s with polls := MemoryStore.replacePoll s.polls pid p' } ∧
    ∃ p, s.get_poll pid = some p ∧
      MemoryStore.addVoteToPoll p oid vid vn rsn now = some (p', o', v') := by
  cases hg : s.get_poll pid with
  | none => simp [MemoryStore.add_vote, hg] at h1
  | some p =>
      cases hv : MemoryStore.addVoteToPoll p oid vid vn rsn now with
      | none => simp [MemoryStore.add_vote, hg, hv] at h1
      | some r =>
          have h2 : r = (p', o', v') := by
            simpa [MemoryStore.add_vote, hg, hv] using h1
          subst h2
          exact ⟨by simp [MemoryStore.add_vote, hg, hv], p, rfl, hv⟩

theorem add_vote_get_poll (s : MemoryStore) (pid oid vid vn rsn : String)
    (now : Nat) (p' : StoredPoll) (o' : StoredPollOption) (v' : StoredPollVote)
    (h1 : (s.add_vote pid oid vid vn rsn now).1 = some (p', o', v')) :
    (s.add_vote pid oid vid vn rsn now).2.get_poll pid = some p' := by
  obtain ⟨hs2, p, hg, hv⟩ := add_vote_success_parts s pid oid vid vn rsn now p' o' v' h1
  obtain ⟨_, _, hpp, _⟩ := addVoteToPoll_elim p oid vid vn rsn now p' o' v' hv
  have hpid : p'.poll_id = pid := by
    have hfs := List.find?_some hg
    rw [hpp]
    simpa using hfs
  rw [hs2]
  simpa [MemoryStore.get_poll] using
    get_poll_replacePoll s.polls pid p' ⟨p, hg⟩ hpid

theorem close_poll_get_poll (s : MemoryStore) (pid : String) (now : Nat)
    (q : StoredPoll) (hq : s.get_poll pid = some q) :
    (s.close_poll pid now).2.get_poll pid =
      some (MemoryStore.closePollRecord q now) := by
  have hpid : (MemoryStore.closePollRecord q now).poll_id = pid := by
    have hfs := List.find?_some hq
    simpa [MemoryStore.closePollRecord] using hfs
  simp only [MemoryStore.close_poll, hq]
  simpa [MemoryStore.get_poll] using
    get_poll_replacePoll s.polls pid (MemoryStore.closePollRecord q now) ⟨q, hq⟩ hpid

/-- C10: confirmed. `cast_vote` and `close_poll` act on the poll found
by the frame's `poll_id` alone: for a joined handler whose room is
`rid`, a successful vote lands on that poll regardless of the poll's
own `room_id`, the poll closes regardless of its `room_id`, and the
resulting `poll_voted` / `poll_closed` events are broadcast to `rid` —
the handler's room — not to the poll's room. -/
theorem C10_cross_room_poll (h : HandlerState) (rid uid : String) (reg : Registry)
    (s : MemoryStore) (pid oid rsn : String) (now : Nat)
    (p' : StoredPoll) (o' : StoredPollOption) (v' : StoredPollVote) (q : StoredPoll)
    (hrid : h.room_id = some rid) (hridne : rid ≠ "")
    (huid : h.user_id = some uid) (huidne : uid ≠ "")
    (hvote : (s.add_vote pid oid uid h.nameOrUnknown rsn now).1 = some (p', o', v'))
    (hq : s.get_poll pid = some q) :
    handle_cast_vote h s reg ⟨pid, [oid], rsn⟩ now =
      ⟨h, (s.add_vote pid oid uid h.nameOrUnknown rsn now).2, reg,
        [(EventTarget.toRoom rid, ServerEvent.poll_voted p'.poll_id o'.id v')]⟩ ∧
    (s.add_vote pid oid uid h.nameOrUnknown rsn now).2.get_poll pid = some p' ∧
    handle_close_poll h s reg ⟨pid⟩ now =
      ⟨h, (s.close_poll pid now).2, reg,
        [(EventTarget.toRoom rid,
          ServerEvent.poll_closed q.poll_id uid h.nameOrUnknown)]⟩ ∧
    (s.close_poll pid now).2.get_poll pid =
      some (MemoryStore.closePollRecord q now) ∧
    (MemoryStore.closePollRecord q now).status = PollStatus.POLL_CLOSED := by
  refine ⟨?_, add_vote_get_poll s pid oid uid h.nameOrUnknown rsn now p' o' v' hvote,
    ?_, close_poll_get_poll s pid now q hq, rfl⟩
  · simp only [handle_cast_vote, hrid, huid, pyTruthy, Option.getD_some]
    rw [if_neg (by simp [hridne, huidne])]
    simp only [List.foldl_cons, List.foldl_nil]
    rcases he : s.add_vote pid oid uid h.nameOrUnknown rsn now with ⟨r1, s2⟩
    rw [he] at hvote
    simp only at hvote
    rw [hvote]
    simp
  · simp only [handle_close_poll, hrid, huid, pyTruthy, Option.getD_some]
    rw [if_neg (by simp [hridne, huidne])]
    simp only [MemoryStore.close_poll, hq]
    simp [MemoryStore.closePollRecord]

/-- Witness for `C10_cross_room_poll`: the handler joined to room `rA`
votes on and closes poll `pX`, which lives in room `rB`; the events go
to `rA`. -/
theorem C10_cross_room_poll_witness :
    (C10handler.room_id = some "rA" ∧ "rA" ≠ "" ∧
     C10handler.user_id = some "u1" ∧ "u1" ≠ "" ∧
     (C10store.add_vote "pX" "o1" "u1" C10handler.nameOrUnknown "" 3).1 =
       some (⟨"pX", "rB", "u9", "Nine", ParticipantType.HUMAN, "q",
          [⟨"o1", "A", "", [⟨"u1", "Uma", "", 3⟩]⟩, ⟨"o2", "B", "", []⟩],
          false, false, PollStatus.POLL_OPEN, 0, none, false⟩,
        ⟨"o1", "A", "", [⟨"u1", "Uma", "", 3⟩]⟩, ⟨"u1", "Uma", "", 3⟩) ∧
     C10store.get_poll "pX" = some C10poll) ∧
    (handle_cast_vote C10handler C10store [] ⟨"pX", ["o1"], ""⟩ 3 =
      ⟨C10handler, (C10store.add_vote "pX" "o1" "u1" C10handler.nameOrUnknown "" 3).2, [],
        [(EventTarget.toRoom "rA",
          ServerEvent.poll_voted
            (StoredPoll.poll_id ⟨"pX", "rB", "u9", "Nine", ParticipantType.HUMAN, "q",
              [⟨"o1", "A", "", [⟨"u1", "Uma", "", 3⟩]⟩, ⟨"o2", "B", "", []⟩],
              false, false, PollStatus.POLL_OPEN, 0, none, false⟩)
            (StoredPollOption.id ⟨"o1", "A", "", [⟨"u1", "Uma", "", 3⟩]⟩)
            ⟨"u1", "Uma", "", 3⟩)]⟩ ∧
    (C10store.add_vote "pX" "o1" "u1" C10handler.nameOrUnknown "" 3).2.get_poll "pX" =
      some ⟨"pX", "rB", "u9", "Nine", ParticipantType.HUMAN, "q",
        [⟨"o1", "A", "", [⟨"u1", "Uma", "", 3⟩]⟩, ⟨"o2", "B", "", []⟩],
        false, false, PollStatus.POLL_OPEN, 0, none, false⟩ ∧
    handle_close_poll C10handler C10store [] ⟨"pX"⟩ 3 =
      ⟨C10handler, (C10store.close_poll "pX" 3).2, [],
        [(EventTarget.toRoom "rA",
          ServerEvent.poll_closed C10poll.poll_id "u1" C10handler.nameOrUnknown)]⟩ ∧
    (C10store.close_poll "pX" 3).2.get_poll "pX" =
      some (MemoryStore.closePollRecord C10poll 3) ∧
    (MemoryStore.closePollRecord C10poll 3).status = PollStatus.POLL_CLOSED) :=
  ⟨⟨by decide, by decide, by decide, by decide, by decide, by decide⟩,
   C10_cross_room_poll C10handler "rA" "u1" [] C10store "pX" "o1" "" 3
     ⟨"pX", "rB", "u9", "Nine", ParticipantType.HUMAN, "q",
       [⟨"o1", "A", "", [⟨"u1", "Uma", "", 3⟩]⟩, ⟨"o2", "B", "", []⟩],
       false, false, PollStatus.POLL_OPEN, 0, none, false⟩
     ⟨"o1", "A", "", [⟨"u1", "Uma", "", 3⟩]⟩ ⟨"u1", "Uma", "", 3⟩ C10poll
     (by decide) (by decide) (by decide) (by decide) (by decide) (by decide)⟩

theorem findSortIdx_lt_length (c : String) :
    ∀ (msgs : List StoredMessage) (i : Nat),
      findSortIdx c msgs = some i → i < msgs.length := by
  intro msgs
  induction msgs with
  | nil => intro i h; simp [findSortIdx] at h
  | cons m ms ih =>
      intro i h
      by_cases hm : m.sort_key = c
      · simp only [findSortIdx, if_pos hm, Option.some.injEq] at h
        simp only [List.length_cons]
        omega
      · simp only [findSortIdx, if_neg hm] at h
        rcases Option.map_eq_some'.mp h with ⟨j, hj, hji⟩
        have := ih j hj
        simp only [List.length_cons]
        omega

theorem cursorIdx_le (msgs : List StoredMessage) (cursor : Option String) :
    cursorIdx msgs cursor ≤ msgs.length := by
  cases cursor with
  | none => simp [cursorIdx]
  | some c =>
      by_cases hc : c = ""
      · simp [cursorIdx, hc]
      · simp only [cursorIdx, if_neg hc]
        cases hf : findSortIdx c msgs with
        | none => simp
        | some i =>
            simp only []
            exact le_of_lt (findSortIdx_lt_length c msgs i hf)

theorem findSortIdx_get (msgs : List StoredMessage)
    (hnd : (msgs.map StoredMessage.sort_key).Nodup) :
    ∀ (i : Nat) (hi : i < msgs.length),
      findSortIdx ((msgs.get ⟨i, hi⟩).sort_key) msgs = some i := by
  induction msgs with
  | nil => intro i hi; simp at hi
  | cons m ms ih =>
      intro i hi
      cases i with
      | zero => simp [findSortIdx, List.get]
      | succ j =>
          have hj : j < ms.length := by simpa using hi
          have hnd2 : (ms.map StoredMessage.sort_key).Nodup :=
            (List.nodup_cons.mp (by simpa using hnd)).2
          have hnotin : m.sort_key ∉ ms.map StoredMessage.sort_key :=
            (List.nodup_cons.mp (by simpa using hnd)).1
          have hne2 : m.sort_key ≠ (ms.get ⟨j, hj⟩).sort_key := by
            intro he
            exact hnotin (he ▸ List.mem_map_of_mem _ (List.get_mem ms j hj))
          have hget : ((m :: ms).get ⟨j + 1, hi⟩) = ms.get ⟨j, hj⟩ := rfl
          rw [hget]
          simp only [findSortIdx, if_neg hne2, ih hnd2 j hj, Option.map_some']

theorem cursorIdx_some_get (msgs : List StoredMessage)
    (hnd : (msgs.map StoredMessage.sort_key).Nodup)
    (hne : ∀ m ∈ msgs, m.sort_key ≠ "")
    (i : Nat) (hi : i < msgs.length) :
    cursorIdx msgs (some ((msgs.get ⟨i, hi⟩).sort_key)) = i := by
  have hkey : (msgs.get ⟨i, hi⟩).sort_key ≠ "" :=
    hne _ (List.get_mem msgs i hi)
  simp only [cursorIdx, if_neg hkey, findSortIdx_get msgs hnd i hi]

theorem slice_take_drop (msgs : List StoredMessage) (s e : Nat) (hse : s ≤ e) :
    (msgs.drop s).take (e - s) = (msgs.take e).drop s := by
  rw [List.take_drop]
  have h2 : s + (e - s) = e := by omega
  rw [h2]

theorem load_history_core (msgs : List StoredMessage) (limit : Nat)
    (cursor : Option String) (hl : 1 ≤ limit) :
    load_history_list msgs limit cursor =
      some ((msgs.take (cursorIdx msgs cursor)).drop (cursorIdx msgs cursor - limit),
        if limit < cursorIdx msgs cursor
        then (msgs[cursorIdx msgs cursor - limit]?).map StoredMessage.sort_key
        else none) := by
  have he := cursorIdx_le msgs cursor
  set e := cursorIdx msgs cursor with hedef
  have hpage := slice_take_drop msgs (e - limit) e (by omega)
  by_cases hlt : limit < e
  · have hstart : e - limit < msgs.length := by omega
    have hsk : msgs[e - limit]? = some (msgs.get ⟨e - limit, hstart⟩) := by
      rw [List.getElem?_eq_getElem hstart]
      rfl
    simp only [load_history_list, ← hedef]
    rw [if_pos (show 0 < e - limit by omega)]
    rw [List.head?_take, if_neg (show ¬(e - (e - limit)) = 0 by omega),
      List.head?_drop, hsk]
    simp only [Option.some.injEq]
    rw [if_pos hlt, hpage]
    simp
  · simp only [load_history_list, ← hedef]
    rw [if_neg (show ¬ 0 < e - limit by omega), if_neg hlt, hpage]

/-- The fuel-indexed pagination walk reproduces the history prefix up to
the cursor position. -/
theorem pagesConcat_from (msgs : List StoredMessage) (limit : Nat) (hl : 1 ≤ limit)
    (hnd : (msgs.map StoredMessage.sort_key).Nodup)
    (hne : ∀ m ∈ msgs, m.sort_key ≠ "") :
    ∀ (fuel e : Nat) (cursor : Option String), cursorIdx msgs cursor = e →
      e ≤ fuel → pagesConcat msgs limit (fuel + 1) cursor = msgs.take e := by
  intro fuel
  induction fuel with
  | zero =>
      intro e cursor hce hef
      have he0 : e = 0 := by omega
      subst he0
      rw [pagesConcat, load_history_core msgs limit cursor hl, hce]
      rw [if_neg (by omega)]
      simp
  | succ f ih =>
      intro e cursor hce hef
      have he := cursorIdx_le msgs cursor
      by_cases hlt : limit < e
      · have hstart : e - limit < msgs.length := by omega
        have hm : msgs[e - limit]? = some (msgs.get ⟨e - limit, hstart⟩) := by
          rw [List.getElem?_eq_getElem hstart]
          rfl
        rw [pagesConcat, load_history_core msgs limit cursor hl, hce,
          if_pos hlt, hm]
        simp only [Option.map_some']
        rw [ih (e - limit) (some ((msgs.get ⟨e - limit, hstart⟩).sort_key))
          (cursorIdx_some_get msgs hnd hne (e - limit) hstart) (by omega)]
        conv_rhs => rw [← List.take_append_drop (e - limit) (msgs.take e)]
        rw [List.take_take]
        congr 2
        omega
      · rw [pagesConcat, load_history_core msgs limit cursor hl, hce,
          if_neg hlt]
        have hz : e - limit = 0 := by omega
        rw [hz]
        simp

/-- C2: refuted as stated. With `limit = 0` on a non-empty history (and
no cursor), `load_history` evaluates `page[0]` on an empty page and
raises `IndexError` (modelled as `none`) instead of returning a page. -/
theorem C2_counterexample :
    C2storeX.load_history "r1" 0 none = none ∧ C2storeX.msgsOf "r1" ≠ [] := by
  constructor
  · decide
  · decide

/-- C2 (amended): for `limit ≥ 1`, pairwise-distinct non-empty sort
keys (as `add_message` produces), and a cursor that is absent or the
sort key of a stored message, `load_history` returns a page of at most
`limit` messages forming a suffix of the prefix of the history strictly
before the cursor position (hence the newest strictly-older messages,
in chronological append order); `next_cursor` is present iff messages
older than the page exist, and then equals the sort key of the oldest
returned message; and the concatenation of successive pages,
oldest-first, until `next_cursor` is empty, is the entire history. -/
theorem C2_history_pagination (msgs : List StoredMessage) (limit : Nat)
    (cursor : Option String) (hl : 1 ≤ limit)
    (hnd : (msgs.map StoredMessage.sort_key).Nodup)
    (hne : ∀ m ∈ msgs, m.sort_key ≠ "")
    (hcur : cursor = none ∨ ∃ m ∈ msgs, cursor = some m.sort_key) :
    (∃ page nc, load_history_list msgs limit cursor = some (page, nc) ∧
      page.length ≤ limit ∧
      page <:+ msgs.take (cursorIdx msgs cursor) ∧
      (nc.isSome ↔ limit < cursorIdx msgs cursor) ∧
      (limit < cursorIdx msgs cursor → nc = page.head?.map StoredMessage.sort_key) ∧
      (cursorIdx msgs cursor ≤ limit → page = msgs.take (cursorIdx msgs cursor))) ∧
    (∀ c, cursor = some c →
      ∃ i, ∃ hi : i < msgs.length,
        (msgs.get ⟨i, hi⟩).sort_key = c ∧ cursorIdx msgs cursor = i) ∧
    pagesConcat msgs limit (msgs.length + 1) none = msgs := by
  have he := cursorIdx_le msgs cursor
  refine ⟨?_, ?_, ?_⟩
  · refine ⟨(msgs.take (cursorIdx msgs cursor)).drop (cursorIdx msgs cursor - limit),
      (if limit < cursorIdx msgs cursor
       then (msgs[cursorIdx msgs cursor - limit]?).map StoredMessage.sort_key
       else none),
      load_history_core msgs limit cursor hl, ?_, ?_, ?_, ?_, ?_⟩
    · rw [← slice_take_drop msgs (cursorIdx msgs cursor - limit)
        (cursorIdx msgs cursor) (by omega)]
      rw [List.length_take]
      have := List.length_drop (cursorIdx msgs cursor - limit) msgs
      omega
    · exact List.drop_suffix _ _
    · by_cases hlt : limit < cursorIdx msgs cursor
      · rw [if_pos hlt]
        have hstart : cursorIdx msgs cursor - limit < msgs.length := by omega
        rw [List.getElem?_eq_getElem hstart]
        simpa using hlt
      · rw [if_neg hlt]
        simpa using hlt
    · intro hlt
      rw [if_pos hlt]
      rw [← slice_take_drop msgs (cursorIdx msgs cursor - limit)
        (cursorIdx msgs cursor) (by omega)]
      rw [List.head?_take, if_neg (by omega), List.head?_drop]
    · intro hle
      have hz : cursorIdx msgs cursor - limit = 0 := by omega
      rw [hz, List.drop_zero]
  · intro c hc
    rcases hcur with hn | ⟨m, hm, hms⟩
    · rw [hn] at hc; exact absurd hc (by simp)
    · rw [hc] at hms
      have hms2 : c = m.sort_key := by simpa using hms
      subst hms2
      rcases List.mem_iff_get.mp hm with ⟨⟨i, hi⟩, hgi⟩
      refine ⟨i, hi, by rw [hgi], ?_⟩
      rw [hc, ← hgi]
      exact cursorIdx_some_get msgs hnd hne i hi
  · have hfull := pagesConcat_from msgs limit hl hnd hne msgs.length msgs.length
      none (by simp [cursorIdx]) (le_refl _)
    simpa [List.take_length] using hfull

/-- Witness for `C2_history_pagination`: three messages, `limit = 2`,
cursor at the newest message. -/
theorem C2_history_pagination_witness :
    (1 ≤ 2 ∧ (C2msgs.map StoredMessage.sort_key).Nodup ∧
     (∀ m ∈ C2msgs, m.sort_key ≠ "") ∧
     ((some (make_sort_key 3 "m3") : Option String) = none ∨
       ∃ m ∈ C2msgs, (some (make_sort_key 3 "m3") : Option String) = some m.sort_key)) ∧
    ((∃ page nc, load_history_list C2msgs 2 (some (make_sort_key 3 "m3")) = some (page, nc) ∧
      page.length ≤ 2 ∧
      page <:+ C2msgs.take (cursorIdx C2msgs (some (make_sort_key 3 "m3"))) ∧
      (nc.isSome ↔ 2 < cursorIdx C2msgs (some (make_sort_key 3 "m3"))) ∧
      (2 < cursorIdx C2msgs (some (make_sort_key 3 "m3")) →
        nc = page.head?.map StoredMessage.sort_key) ∧
      (cursorIdx C2msgs (some (make_sort_key 3 "m3")) ≤ 2 →
        page = C2msgs.take (cursorIdx C2msgs (some (make_sort_key 3 "m3"))))) ∧
    (∀ c, (some (make_sort_key 3 "m3") : Option String) = some c →
      ∃ i, ∃ hi : i < C2msgs.length,
        (C2msgs.get ⟨i, hi⟩).sort_key = c ∧
        cursorIdx C2msgs (some (make_sort_key 3 "m3")) = i) ∧
    pagesConcat C2msgs 2 (C2msgs.length + 1) none = C2msgs) :=
  ⟨⟨by decide, by decide, by decide, by decide⟩,
   C2_history_pagination C2msgs 2 (some (make_sort_key 3 "m3")) (by decide)
     (by decide) (by decide) (by decide)⟩

theorem insertByCreatedDesc_perm (r : StoredRoom) (l : List StoredRoom) :
    (insertByCreatedDesc r l).Perm (r :: l) := by
  induction l with
  | nil => exact List.Perm.refl _
  | cons x xs ih =>
      by_cases h : r.created_at ≤ x.created_at
      · simp only [insertByCreatedDesc, if_pos h]
        exact (ih.cons x).trans (List.Perm.swap r x xs)
      · simp only [insertByCreatedDesc, if_neg h]
        exact List.Perm.refl _

theorem insertByCreatedDesc_pairwise (r : StoredRoom) (l : List StoredRoom)
    (hl : l.Pairwise (fun a b => b.created_at ≤ a.created_at)) :
    (insertByCreatedDesc r l).Pairwise (fun a b => b.created_at ≤ a.created_at) := by
  induction l with
  | nil => simp [insertByCreatedDesc]
  | cons x xs ih =>
      rcases List.pairwise_cons.mp hl with ⟨hx, hxs⟩
      by_cases h : r.created_at ≤ x.created_at
      · simp only [insertByCreatedDesc, if_pos h]
        rw [List.pairwise_cons]
        refine ⟨?_, ih hxs⟩
        intro b hb
        have hmem := (insertByCreatedDesc_perm r xs).mem_iff.mp hb
        rcases List.mem_cons.mp hmem with hb2 | hbxs
        · rw [hb2]; exact h
        · exact hx b hbxs
      · simp only [insertByCreatedDesc, if_neg h]
        rw [List.pairwise_cons]
        push_neg at h
        refine ⟨?_, hl⟩
        intro b hb
        rcases List.mem_cons.mp hb with hb2 | hbxs
        · rw [hb2]; exact le_of_lt h
        · exact le_trans (hx b hbxs) (le_of_lt h)

theorem sortByCreatedDesc_pairwise_aux (rs : List StoredRoom) :
    ∀ acc : List StoredRoom,
      acc.Pairwise (fun a b => b.created_at ≤ a.created_at) →
      (rs.foldl (fun a r => insertByCreatedDesc r a) acc).Pairwise
        (fun a b => b.created_at ≤ a.created_at) := by
  induction rs with
  | nil => intro acc h; exact h
  | cons r rs ih =>
      intro acc h
      exact ih _ (insertByCreatedDesc_pairwise r acc h)

theorem sortByCreatedDesc_perm_aux (rs : List StoredRoom) :
    ∀ acc : List StoredRoom,
      (rs.foldl (fun a r => insertByCreatedDesc r a) acc).Perm (acc ++ rs) := by
  induction rs with
  | nil => intro acc; simp
  | cons r rs ih =>
      intro acc
      refine (ih (insertByCreatedDesc r acc)).trans ?_
      refine (((insertByCreatedDesc_perm r acc).append_right rs).trans ?_)
      simp only [List.cons_append]
      exact List.perm_middle.symm

theorem sortByCreatedDesc_sorted (rs : List StoredRoom) :
    (sortByCreatedDesc rs).Pairwise (fun a b => b.created_at ≤ a.created_at) :=
  sortByCreatedDesc_pairwise_aux rs [] (by simp)

theorem sortByCreatedDesc_perm (rs : List StoredRoom) :
    (sortByCreatedDesc rs).Perm rs := by
  simpa using sortByCreatedDesc_perm_aux rs []

/-- C3: refuted as stated. The store holds a single public room (created
by `alice`), yet `list_rooms` called with `user_id = "bob"` — a user
who never joined it — returns the empty page: with a truthy `user_id`
the source restricts candidates to the caller's joined rooms before any
visibility filtering, so public rooms are not listed for every caller. -/
theorem C3_counterexample :
    C3store.list_rooms (some "bob") 20 none = some ([], none) ∧
    (∃ r ∈ C3store.rooms,
      r.visibility = RoomVisibility.ROOM_VISIBILITY_PUBLIC) := by
  constructor
  · decide
  · decide

/-- C3 (amended): for `limit ≥ 1`, `list_rooms` returns a page drawn
from the candidate set — every room when `user_id` is absent, only the
caller's joined rooms when `user_id` is truthy — with private rooms of
other creators filtered out, sorted by `created_at` descending; the
page is the `limit`-window of the sorted list starting after the
cursor's position (from the beginning when the cursor is absent), and
`next_cursor` is present iff the page filled exactly `limit`. (With
`limit = 0` the source raises `IndexError` from `page[-1]`.) -/
theorem C3_list_rooms (s : MemoryStore) (user_id : Option String) (limit : Nat)
    (cursor : Option String) (hl : 1 ≤ limit) :
    ∃ page nc, s.list_rooms user_id limit cursor = some (page, nc) ∧
      page = ((s.listSorted user_id).drop (s.listStart user_id cursor)).take limit ∧
      page.Pairwise (fun a b => b.created_at ≤ a.created_at) ∧
      (∀ r ∈ page, r ∈ s.listCandidates user_id ∧
        (r.visibility = RoomVisibility.ROOM_VISIBILITY_PRIVATE →
          pyEqStr r.created_by user_id = true)) ∧
      (user_id = none → s.listCandidates user_id = s.rooms) ∧
      (∀ uid, user_id = some uid → uid ≠ "" →
        ∀ r ∈ page, r.room_id ∈ s.userJoinedRooms uid) ∧
      (cursor = none → page = (s.listSorted user_id).take limit) ∧
      (nc.isSome ↔ page.length = limit) := by
  have hsub : List.Sublist
      (((s.listSorted user_id).drop (s.listStart user_id cursor)).take limit)
      (s.listSorted user_id) :=
    (List.take_sublist _ _).trans (List.drop_sublist _ _)
  have hsorted := (sortByCreatedDesc_sorted (s.listFiltered user_id)).sublist hsub
  have hmemF : ∀ r ∈ ((s.listSorted user_id).drop (s.listStart user_id cursor)).take limit,
      r ∈ s.listFiltered user_id := by
    intro r hr
    exact (sortByCreatedDesc_perm _).subset (hsub.subset hr)
  have hmemC : ∀ r ∈ ((s.listSorted user_id).drop (s.listStart user_id cursor)).take limit,
      r ∈ s.listCandidates user_id ∧
      (r.visibility = RoomVisibility.ROOM_VISIBILITY_PRIVATE →
        pyEqStr r.created_by user_id = true) := by
    intro r hr
    have hf := hmemF r hr
    rw [MemoryStore.listFiltered, List.mem_filter] at hf
    refine ⟨hf.1, ?_⟩
    intro hpriv
    have hp := hf.2
    simp only [decide_eq_true_eq, hpriv] at hp
    rcases hp with hp | hp
    · exact absurd rfl hp
    · exact hp
  have hjoined : ∀ uid, user_id = some uid → uid ≠ "" →
      ∀ r ∈ ((s.listSorted user_id).drop (s.listStart user_id cursor)).take limit,
      r.room_id ∈ s.userJoinedRooms uid := by
    intro uid huid hne r hr
    have hc := (hmemC r hr).1
    rw [huid] at hc
    simp only [MemoryStore.listCandidates, if_neg hne] at hc
    rcases List.mem_filterMap.mp hc with ⟨rid, hrid, hfind⟩
    have hfound := List.find?_some hfind
    have hrid2 : r.room_id = rid := by simpa using hfound
    rw [hrid2]
    exact hrid
  by_cases hlen : (((s.listSorted user_id).drop (s.listStart user_id cursor)).take
      limit).length = limit
  · have hnil : ((s.listSorted user_id).drop (s.listStart user_id cursor)).take
        limit ≠ [] := by
      intro h0
      rw [h0] at hlen
      simp at hlen
      omega
    have hlast : (((s.listSorted user_id).drop (s.listStart user_id cursor)).take
        limit).getLast?.isSome := by
      rw [List.getLast?_isSome]
      exact hnil
    rcases Option.isSome_iff_exists.mp hlast with ⟨r, hr⟩
    refine ⟨_, some r.room_id, ?_, rfl, hsorted, hmemC, ?_, hjoined, ?_, ?_⟩
    · simp only [MemoryStore.list_rooms, hlen, if_pos, hr]
    · intro hn; rw [hn, MemoryStore.listCandidates]
    · intro hn
      rw [hn]
      simp [MemoryStore.listStart]
    · simp [hlen]
  · refine ⟨_, none, ?_, rfl, hsorted, hmemC, ?_, hjoined, ?_, ?_⟩
    · simp only [MemoryStore.list_rooms, hlen, if_neg, if_false]
    · intro hn; rw [hn, MemoryStore.listCandidates]
    · intro hn
      rw [hn]
      simp [MemoryStore.listStart]
    · simp only [Option.isSome_none, Bool.false_eq_true, false_iff]
      exact hlen

/-- Witness for `C3_list_rooms`: two public rooms, no caller filter,
`limit = 1`; the newest room is returned with a continuation cursor. -/
theorem C3_list_rooms_witness :
    1 ≤ 1 ∧
    (∃ page nc, C3storeW.list_rooms none 1 none = some (page, nc) ∧
      page = ((C3storeW.listSorted none).drop (C3storeW.listStart none none)).take 1 ∧
      page.Pairwise (fun a b => b.created_at ≤ a.created_at) ∧
      (∀ r ∈ page, r ∈ C3storeW.listCandidates none ∧
        (r.visibility = RoomVisibility.ROOM_VISIBILITY_PRIVATE →
          pyEqStr r.created_by none = true)) ∧
      ((none : Option String) = none → C3storeW.listCandidates none = C3storeW.rooms) ∧
      (∀ uid, (none : Option String) = some uid → uid ≠ "" →
        ∀ r ∈ page, r.room_id ∈ C3storeW.userJoinedRooms uid) ∧
      ((none : Option String) = none →
        page = (C3storeW.listSorted none).take 1) ∧
      (nc.isSome ↔ page.length = 1)) :=
  ⟨by decide, C3_list_rooms C3storeW none 1 none (by decide)⟩

theorem add_vote_messages (s : MemoryStore) (pid oid vid vn rsn : String)
    (now : Nat) :
    (s.add_vote pid oid vid vn rsn now).2.messages = s.messages := by
  unfold MemoryStore.add_vote
  split
  · rfl
  · split
    · rfl
    · rfl

theorem voteStep_shape (cfg : LLMConfig) (pid rsn : String) (now : Nat)
    (st : Bool × MemoryStore × List ServerEvent) (oid : String) :
    (voteStep cfg pid rsn now st oid).2.1.messages = st.2.1.messages ∧
    ∀ ev ∈ (voteStep cfg pid rsn now st oid).2.2,
      ev ∈ st.2.2 ∨ ∃ p o vv, ev = ServerEvent.poll_voted p o vv := by
  unfold voteStep
  cases hr : (st.2.1.add_vote pid oid cfg.id cfg.display_name rsn now).1 with
  | some pov =>
      simp only [hr]
      constructor
      · exact add_vote_messages st.2.1 pid oid cfg.id cfg.display_name rsn now
      · intro ev hev
        rcases List.mem_append.mp hev with h | h
        · exact Or.inl h
        · rcases List.mem_singleton.mp h with rfl
          exact Or.inr ⟨_, _, _, rfl⟩
  | none =>
      simp only [hr]
      exact ⟨by simp, fun ev h => Or.inl h⟩

theorem voteStep_fold_shape (cfg : LLMConfig) (pid rsn : String) (now : Nat) :
    ∀ (oids : List String) (init : Bool × MemoryStore × List ServerEvent),
      (oids.foldl (voteStep cfg pid rsn now) init).2.1.messages = init.2.1.messages ∧
      ∀ ev ∈ (oids.foldl (voteStep cfg pid rsn now) init).2.2,
        ev ∈ init.2.2 ∨ ∃ p o vv, ev = ServerEvent.poll_voted p o vv := by
  intro oids
  induction oids with
  | nil => intro init; exact ⟨rfl, fun ev h => Or.inl h⟩
  | cons oid rest ih =>
      intro init
      rw [List.foldl_cons]
      rcases ih (voteStep cfg pid rsn now init oid) with ⟨hm, he⟩
      rcases voteStep_shape cfg pid rsn now init oid with ⟨hvm, hve⟩
      constructor
      · rw [hm, hvm]
      · intro ev hev
        rcases he ev hev with h | h
        · rcases hve ev h with h2 | h2
          · exact Or.inl h2
          · exact Or.inr h2
        · exact Or.inr h

theorem handle_vote_shape (s : MemoryStore) (cfg : LLMConfig) (tc : ToolCall)
    (now : Nat) :
    (handle_vote_tool_call s cfg tc now).2.1.messages = s.messages ∧
    ∀ ev ∈ (handle_vote_tool_call s cfg tc now).2.2,
      ∃ p o vv, ev = ServerEvent.poll_voted p o vv := by
  unfold handle_vote_tool_call
  split
  · exact ⟨rfl, by simp⟩
  · split
    · exact ⟨rfl, by simp⟩
    · rcases voteStep_fold_shape cfg tc.arg_poll_id tc.arg_reason now
        tc.arg_option_ids (false, s, []) with ⟨hm, he⟩
      refine ⟨hm, ?_⟩
      intro ev hev
      rcases he ev hev with h | h
      · simp at h
      · exact h

theorem processToolCalls_shape (cfg : LLMConfig) (now : Nat) :
    ∀ (tcs : List ToolCall) (st : LoopState),
      (processToolCalls cfg now tcs st).store.messages = st.store.messages ∧
      ∀ ev ∈ (processToolCalls cfg now tcs st).events,
        ev ∈ st.events ∨ ∃ p o vv, ev = ServerEvent.poll_voted p o vv := by
  intro tcs
  induction tcs with
  | nil => intro st; exact ⟨rfl, fun ev h => Or.inl h⟩
  | cons tc rest ih =>
      intro st
      by_cases h1 : tc.name = "opt_out"
      · simp only [processToolCalls, if_pos h1]
        exact ⟨by simp, fun ev h => Or.inl h⟩
      · by_cases h2 : tc.name = "mention"
        · simp only [processToolCalls, if_neg h1, if_pos h2]
          by_cases h3 : tc.args_ok = true ∧ tc.arg_participant ≠ ""
          · rw [if_pos h3]
            exact ih _
          · rw [if_neg h3]
            exact ih st
        · by_cases h3 : tc.name = "vote_on_poll"
          · simp only [processToolCalls, if_neg h1, if_neg h2, if_pos h3]
            rcases handle_vote_shape st.store cfg tc now with ⟨hvm, hve⟩
            rcases ih { st with
                store := (handle_vote_tool_call st.store cfg tc now).2.1,
                events := st.events ++
                  (handle_vote_tool_call st.store cfg tc now).2.2 } with ⟨hm, he⟩
            constructor
            · rw [hm]
              exact hvm
            · intro ev hev
              rcases he ev hev with h | h
              · rcases List.mem_append.mp h with h4 | h4
                · exact Or.inl h4
                · exact Or.inr (hve ev h4)
              · exact Or.inr h
          · simp only [processToolCalls, if_neg h1, if_neg h2, if_neg h3]
            exact ih st

theorem processDeltas_shape (cfg : LLMConfig) (mid trig : String) (now : Nat) :
    ∀ (ds : List ChatDelta) (st : LoopState),
      (processDeltas cfg mid trig now ds st).store.messages = st.store.messages ∧
      ∀ ev ∈ (processDeltas cfg mid trig now ds st).events,
        ev ∈ st.events ∨ (∃ c, ev = ServerEvent.llm_chunk mid cfg.id c trig) ∨
          ∃ p o vv, ev = ServerEvent.poll_voted p o vv := by
  intro ds
  induction ds with
  | nil => intro st; exact ⟨rfl, fun ev h => Or.inl h⟩
  | cons d rest ih =>
      intro st
      by_cases h1 : d.opted_out = true
      · simp only [processDeltas, if_pos h1]
        exact ⟨by simp, fun ev h => Or.inl h⟩
      · simp only [processDeltas, if_neg h1]
        rcases processToolCalls_shape cfg now d.tool_calls st with ⟨ptm, pte⟩
        by_cases h2 : (processToolCalls cfg now d.tool_calls st).opted_out = true
        · rw [if_pos h2]
          refine ⟨ptm, ?_⟩
          intro ev h
          rcases pte ev h with h3 | h3
          · exact Or.inl h3
          · exact Or.inr (Or.inr h3)
        · rw [if_neg h2]
          by_cases h3 : d.content ≠ ""
          · rw [if_pos h3]
            rcases ih { processToolCalls cfg now d.tool_calls st with
                chunks := (processToolCalls cfg now d.tool_calls st).chunks ++
                  [d.content]
                events := (processToolCalls cfg now d.tool_calls st).events ++
                  [ServerEvent.llm_chunk mid cfg.id d.content trig] } with ⟨ihm, ihe⟩
            constructor
            · rw [ihm]
              exact ptm
            · intro ev h
              rcases ihe ev h with h4 | h4 | h4
              · rcases List.mem_append.mp h4 with h5 | h5
                · rcases pte ev h5 with h6 | h6
                  · exact Or.inl h6
                  · exact Or.inr (Or.inr h6)
                · rcases List.mem_singleton.mp h5 with rfl
                  exact Or.inr (Or.inl ⟨d.content, rfl⟩)
              · exact Or.inr (Or.inl h4)
              · exact Or.inr (Or.inr h4)
          · rw [if_neg h3]
            rcases ih (processToolCalls cfg now d.tool_calls st) with ⟨ihm, ihe⟩
            constructor
            · rw [ihm]
              exact ptm
            · intro ev h
              rcases ihe ev h with h4 | h4 | h4
              · rcases pte ev h4 with h6 | h6
                · exact Or.inl h6
                · exact Or.inr (Or.inr h6)
              · exact Or.inr (Or.inl h4)
              · exact Or.inr (Or.inr h4)

theorem pollToolStep_fold_shape (cfg : LLMConfig) (now : Nat) :
    ∀ (tcs : List ToolCall) (st : LoopState),
      (tcs.foldl (pollToolStep cfg now) st).store.messages = st.store.messages ∧
      ∀ ev ∈ (tcs.foldl (pollToolStep cfg now) st).events,
        ev ∈ st.events ∨ ∃ p o vv, ev = ServerEvent.poll_voted p o vv := by
  intro tcs
  induction tcs with
  | nil => intro st; exact ⟨rfl, fun ev h => Or.inl h⟩
  | cons tc rest ih =>
      intro st
      rw [List.foldl_cons]
      by_cases h1 : tc.name = "vote_on_poll"
      · rcases handle_vote_shape st.store cfg tc now with ⟨hvm, hve⟩
        rcases ih (pollToolStep cfg now st tc) with ⟨hm, he⟩
        constructor
        · rw [hm]
          simp only [pollToolStep, if_pos h1]
          exact hvm
        · intro ev hev
          rcases he ev hev with h | h
          · simp only [pollToolStep, if_pos h1] at h
            rcases List.mem_append.mp h with h4 | h4
            · exact Or.inl h4
            · exact Or.inr (hve ev h4)
          · exact Or.inr h
      · rcases ih (pollToolStep cfg now st tc) with ⟨hm, he⟩
        constructor
        · rw [hm]
          simp only [pollToolStep, if_neg h1]
        · intro ev hev
          rcases he ev hev with h | h
          · simp only [pollToolStep, if_neg h1] at h
            exact Or.inl h
          · exact Or.inr h

theorem processPollDeltas_shape (cfg : LLMConfig) (mid trig : String) (now : Nat) :
    ∀ (ds : List ChatDelta) (st : LoopState),
      (processPollDeltas cfg mid trig now ds st).store.messages = st.store.messages ∧
      ∀ ev ∈ (processPollDeltas cfg mid trig now ds st).events,
        ev ∈ st.events ∨ (∃ c, ev = ServerEvent.llm_chunk mid cfg.id c trig) ∨
          ∃ p o vv, ev = ServerEvent.poll_voted p o vv := by
  intro ds
  induction ds with
  | nil => intro st; exact ⟨rfl, fun ev h => Or.inl h⟩
  | cons d rest ih =>
      intro st
      simp only [processPollDeltas]
      rcases pollToolStep_fold_shape cfg now d.tool_calls st with ⟨ptm, pte⟩
      by_cases h3 : d.content ≠ ""
      · rw [if_pos h3]
        rcases ih { d.tool_calls.foldl (pollToolStep cfg now) st with
            chunks := (d.tool_calls.foldl (pollToolStep cfg now) st).chunks ++
              [d.content]
            events := (d.tool_calls.foldl (pollToolStep cfg now) st).events ++
              [ServerEvent.llm_chunk mid cfg.id d.content trig] } with ⟨ihm, ihe⟩
        constructor
        · rw [ihm]
          exact ptm
        · intro ev h
          rcases ihe ev h with h4 | h4 | h4
          · rcases List.mem_append.mp h4 with h5 | h5
            · rcases pte ev h5 with h6 | h6
              · exact Or.inl h6
              · exact Or.inr (Or.inr h6)
            · rcases List.mem_singleton.mp h5 with rfl
              exact Or.inr (Or.inl ⟨d.content, rfl⟩)
          · exact Or.inr (Or.inl h4)
          · exact Or.inr (Or.inr h4)
      · rw [if_neg h3]
        rcases ih (d.tool_calls.foldl (pollToolStep cfg now) st) with ⟨ihm, ihe⟩
        constructor
        · rw [ihm]
          exact ptm
        · intro ev h
          rcases ihe ev h with h4 | h4 | h4
          · rcases pte ev h4 with h6 | h6
            · exact Or.inl h6
            · exact Or.inr (Or.inr h6)
          · exact Or.inr (Or.inl h4)
          · exact Or.inr (Or.inr h4)

theorem events_classify (evs : List ServerEvent) (rmid : String)
    (cfg : LLMConfig) (trigger : String)
    (hshape : ∀ ev ∈ evs,
      ev = ServerEvent.llm_thinking cfg.id trigger ∨
      (∃ c, ev = ServerEvent.llm_chunk rmid cfg.id c trigger) ∨
      ∃ p o vv, ev = ServerEvent.poll_voted p o vv) :
    (∀ mid lid c rt, ServerEvent.llm_chunk mid lid c rt ∈ evs → mid = rmid) ∧
    (∀ mid lid, ServerEvent.llm_done mid lid ∉ evs) ∧
    (∀ code msg2, ServerEvent.error code msg2 ∉ evs) := by
  refine ⟨?_, ?_, ?_⟩
  · intro mid lid c rt h
    rcases hshape _ h with h2 | ⟨c2, h2⟩ | ⟨p, o, vv, h2⟩
    · exact absurd h2 (by simp)
    · simp only [ServerEvent.llm_chunk.injEq] at h2
      exact h2.1
    · exact absurd h2 (by simp)
  · intro mid lid h
    rcases hshape _ h with h2 | ⟨c2, h2⟩ | ⟨p, o, vv, h2⟩
    · exact absurd h2 (by simp)
    · exact absurd h2 (by simp)
    · exact absurd h2 (by simp)
  · intro code msg2 h
    rcases hshape _ h with h2 | ⟨c2, h2⟩ | ⟨p, o, vv, h2⟩
    · exact absurd h2 (by simp)
    · exact absurd h2 (by simp)
    · exact absurd h2 (by simp)

theorem loop_events_shape (cfg : LLMConfig) (rmid trigger : String) (now : Nat)
    (deltas : List ChatDelta) (s : MemoryStore) :
    ∀ ev ∈ (processDeltas cfg rmid trigger now deltas
      ⟨s, [ServerEvent.llm_thinking cfg.id trigger], [], false, []⟩).events,
      ev = ServerEvent.llm_thinking cfg.id trigger ∨
      (∃ c, ev = ServerEvent.llm_chunk rmid cfg.id c trigger) ∨
      ∃ p o vv, ev = ServerEvent.poll_voted p o vv := by
  intro ev h
  rcases (processDeltas_shape cfg rmid trigger now deltas
      ⟨s, [ServerEvent.llm_thinking cfg.id trigger], [], false, []⟩).2 ev h with
    h2 | h2 | h2
  · exact Or.inl (List.mem_singleton.mp h2)
  · exact Or.inr (Or.inl h2)
  · exact Or.inr (Or.inr h2)

theorem poll_loop_events_shape (cfg : LLMConfig) (rmid trigger : String) (now : Nat)
    (deltas : List ChatDelta) (s : MemoryStore) :
    ∀ ev ∈ (processPollDeltas cfg rmid trigger now deltas
      ⟨s, [ServerEvent.llm_thinking cfg.id trigger], [], false, []⟩).events,
      ev = ServerEvent.llm_thinking cfg.id trigger ∨
      (∃ c, ev = ServerEvent.llm_chunk rmid cfg.id c trigger) ∨
      ∃ p o vv, ev = ServerEvent.poll_voted p o vv := by
  intro ev h
  rcases (processPollDeltas_shape cfg rmid trigger now deltas
      ⟨s, [ServerEvent.llm_thinking cfg.id trigger], [], false, []⟩).2 ev h with
    h2 | h2 | h2
  · exact Or.inl (List.mem_singleton.mp h2)
  · exact Or.inr (Or.inl h2)
  · exact Or.inr (Or.inr h2)

theorem classify_with_done (evs : List ServerEvent) (rmid : String)
    (cfg : LLMConfig) (trigger : String)
    (hshape : ∀ ev ∈ evs,
      ev = ServerEvent.llm_thinking cfg.id trigger ∨
      (∃ c, ev = ServerEvent.llm_chunk rmid cfg.id c trigger) ∨
      ∃ p o vv, ev = ServerEvent.poll_voted p o vv) :
    (∀ mid lid c rt, ServerEvent.llm_chunk mid lid c rt ∈
      evs ++ [ServerEvent.llm_done rmid cfg.id] → mid = rmid) ∧
    (∀ mid lid, ServerEvent.llm_done mid lid ∈
      evs ++ [ServerEvent.llm_done rmid cfg.id] → mid = rmid) := by
  rcases events_classify evs rmid cfg trigger hshape with ⟨hc, hd, _⟩
  constructor
  · intro mid lid c rt h
    rcases List.mem_append.mp h with h2 | h2
    · exact hc mid lid c rt h2
    · exact absurd (List.mem_singleton.mp h2) (by simp)
  · intro mid lid h
    rcases List.mem_append.mp h with h2 | h2
    · exact absurd h2 (hd mid lid)
    · have h3 := List.mem_singleton.mp h2
      simp only [ServerEvent.llm_done.injEq] at h3
      exact h3.1

theorem call_llm_ok_events (s : MemoryStore) (room_id : String) (cfg : LLMConfig)
    (trigger : String) (deltas : List ChatDelta) (rmid : String) (now : Nat)
    (room : StoredRoom) (hroom : s.get_room room_id = some room) :
    (call_llm s room_id cfg trigger (StreamOutcome.ok deltas) rmid now).events =
      (processDeltas cfg rmid trigger now deltas
        ⟨s, [ServerEvent.llm_thinking cfg.id trigger], [], false, []⟩).events ++
      [ServerEvent.llm_done rmid cfg.id] := by
  simp only [call_llm, hroom]
  by_cases hopt : (processDeltas cfg rmid trigger now deltas
      ⟨s, [ServerEvent.llm_thinking cfg.id trigger], [], false, []⟩).opted_out = true
  · rw [if_pos hopt]
  · rw [if_neg hopt]
    by_cases hstrip : pyStrip (stripSelfName (String.join (processDeltas cfg rmid
        trigger now deltas ⟨s, [ServerEvent.llm_thinking cfg.id trigger], [],
        false, []⟩).chunks) cfg.display_name) ≠ ""
    · rw [if_pos hstrip]
    · rw [if_neg hstrip]

theorem call_llm_stored_id (s : MemoryStore) (room_id : String) (cfg : LLMConfig)
    (trigger : String) (outcome : StreamOutcome) (rmid : String) (now : Nat)
    (hmid : rmid ≠ "") (m : StoredMessage)
    (hst : (call_llm s room_id cfg trigger outcome rmid now).stored = some m) :
    m.message_id = rmid := by
  unfold call_llm at hst
  split at hst
  · exact absurd hst (by simp)
  · split at hst
    · dsimp only at hst
      split at hst
      · exact absurd hst (by simp)
      · exact absurd hst (by simp)
    · dsimp only at hst
      split at hst
      · exact absurd hst (by simp)
      · split at hst
        · simp only [MemoryStore.add_message, Option.some.injEq] at hst
          rw [← hst]
          simp [hmid]
        · exact absurd hst (by simp)

theorem call_llm_for_poll_stored_id (s : MemoryStore) (room_id : String)
    (cfg : LLMConfig) (trigger : String) (outcome : StreamOutcome) (rmid : String)
    (now : Nat) (hmid : rmid ≠ "") (m : StoredMessage)
    (hst : (call_llm_for_poll s room_id cfg trigger outcome rmid now).stored = some m) :
    m.message_id = rmid := by
  unfold call_llm_for_poll at hst
  split at hst
  · exact absurd hst (by simp)
  · split at hst
    · exact absurd hst (by simp)
    · dsimp only at hst
      split at hst
      · simp only [MemoryStore.add_message, Option.some.injEq] at hst
        rw [← hst]
        simp [hmid]
      · exact absurd hst (by simp)

theorem call_llm_for_poll_ok_events (s : MemoryStore) (room_id : String)
    (cfg : LLMConfig) (trigger : String) (deltas : List ChatDelta) (rmid : String)
    (now : Nat) (room : StoredRoom) (hroom : s.get_room room_id = some room) :
    (call_llm_for_poll s room_id cfg trigger (StreamOutcome.ok deltas) rmid now).events =
      (processPollDeltas cfg rmid trigger now deltas
        ⟨s, [ServerEvent.llm_thinking cfg.id trigger], [], false, []⟩).events ++
      [ServerEvent.llm_done rmid cfg.id] := by
  simp only [call_llm_for_poll, hroom]
  by_cases hstrip : pyStrip (stripSelfName (String.join (processPollDeltas cfg rmid
      trigger now deltas ⟨s, [ServerEvent.llm_thinking cfg.id trigger], [],
      false, []⟩).chunks) cfg.display_name) ≠ ""
  · rw [if_pos hstrip]
  · rw [if_neg hstrip]

/-- C4: confirmed. For a completed call (general or poll-voting) the
streaming id `response_msg_id` is carried by every `llm_chunk`, by the
terminal `llm_done`, and — when non-empty content is stored — by the
stored message's id. -/
theorem C4_unified_message_id (s : MemoryStore) (room_id : String)
    (cfg : LLMConfig) (trigger : String) (deltas : List ChatDelta) (rmid : String)
    (now : Nat) (hmid : rmid ≠ "") :
    ((∀ mid lid c rt, ServerEvent.llm_chunk mid lid c rt ∈
        (call_llm s room_id cfg trigger (StreamOutcome.ok deltas) rmid now).events →
        mid = rmid) ∧
     (∀ mid lid, ServerEvent.llm_done mid lid ∈
        (call_llm s room_id cfg trigger (StreamOutcome.ok deltas) rmid now).events →
        mid = rmid) ∧
     (∀ m, (call_llm s room_id cfg trigger (StreamOutcome.ok deltas) rmid now).stored
        = some m → m.message_id = rmid)) ∧
    ((∀ mid lid c rt, ServerEvent.llm_chunk mid lid c rt ∈
        (call_llm_for_poll s room_id cfg trigger (StreamOutcome.ok deltas) rmid
          now).events → mid = rmid) ∧
     (∀ mid lid, ServerEvent.llm_done mid lid ∈
        (call_llm_for_poll s room_id cfg trigger (StreamOutcome.ok deltas) rmid
          now).events → mid = rmid) ∧
     (∀ m, (call_llm_for_poll s room_id cfg trigger (StreamOutcome.ok deltas) rmid
        now).stored = some m → m.message_id = rmid)) := by
  cases hroom : s.get_room room_id with
  | none =>
      refine ⟨⟨?_, ?_, ?_⟩, ?_, ?_, ?_⟩ <;>
        simp [call_llm, call_llm_for_poll, hroom]
  | some room =>
      have h1 := classify_with_done _ rmid cfg trigger
        (loop_events_shape cfg rmid trigger now deltas s)
      have h2 := classify_with_done _ rmid cfg trigger
        (poll_loop_events_shape cfg rmid trigger now deltas s)
      rw [← call_llm_ok_events s room_id cfg trigger deltas rmid now room hroom] at h1
      rw [← call_llm_for_poll_ok_events s room_id cfg trigger deltas rmid now room
        hroom] at h2
      exact ⟨⟨h1.1, h1.2,
          fun m hm => call_llm_stored_id s room_id cfg trigger _ rmid now hmid m hm⟩,
        h2.1, h2.2,
        fun m hm => call_llm_for_poll_stored_id s room_id cfg trigger _ rmid now
          hmid m hm⟩

/-- Witness for `C4_unified_message_id`: one room, a one-chunk stream. -/
theorem C4_unified_message_id_witness :
    ("m0123456789abcdef" : String) ≠ "" ∧
    (((∀ mid lid c rt, ServerEvent.llm_chunk mid lid c rt ∈
        (call_llm C4store "r1" C4cfg "t1" (StreamOutcome.ok [⟨"hi", [], false⟩])
          "m0123456789abcdef" 9).events → mid = "m0123456789abcdef") ∧
     (∀ mid lid, ServerEvent.llm_done mid lid ∈
        (call_llm C4store "r1" C4cfg "t1" (StreamOutcome.ok [⟨"hi", [], false⟩])
          "m0123456789abcdef" 9).events → mid = "m0123456789abcdef") ∧
     (∀ m, (call_llm C4store "r1" C4cfg "t1" (StreamOutcome.ok [⟨"hi", [], false⟩])
        "m0123456789abcdef" 9).stored = some m →
        m.message_id = "m0123456789abcdef")) ∧
    ((∀ mid lid c rt, ServerEvent.llm_chunk mid lid c rt ∈
        (call_llm_for_poll C4store "r1" C4cfg "t1"
          (StreamOutcome.ok [⟨"hi", [], false⟩]) "m0123456789abcdef" 9).events →
        mid = "m0123456789abcdef") ∧
     (∀ mid lid, ServerEvent.llm_done mid lid ∈
        (call_llm_for_poll C4store "r1" C4cfg "t1"
          (StreamOutcome.ok [⟨"hi", [], false⟩]) "m0123456789abcdef" 9).events →
        mid = "m0123456789abcdef") ∧
     (∀ m, (call_llm_for_poll C4store "r1" C4cfg "t1"
        (StreamOutcome.ok [⟨"hi", [], false⟩]) "m0123456789abcdef" 9).stored =
        some m → m.message_id = "m0123456789abcdef"))) :=
  ⟨by decide,
   C4_unified_message_id C4store "r1" C4cfg "t1" [⟨"hi", [], false⟩]
     "m0123456789abcdef" 9 (by decide)⟩

/-- C7: refuted as stated. A poll-voting call whose provider stream
errors broadcasts no `error` event at all: the source's
`call_llm_for_poll` handler logs and returns. Here the whole call
produces only the initial `llm_thinking` event and stores nothing. -/
theorem C7_counterexample :
    call_llm_for_poll C7store "r1" C7cfg "t1" (StreamOutcome.err [] "boom")
      "m1" 0 =
      ⟨[ServerEvent.llm_thinking "gemini" "t1"], C7store, none⟩ := by
  decide

/-- C7 (amended): on a Chat-Provider stream error neither call variant
stores a message (the message log is untouched); the general call
broadcasts `error{LLM_ERROR, "Error from <display_name>: <detail>"}`
as its final event (provided the loop did not already stop at an
opt-out), while the poll-voting call broadcasts no error event at
all. -/
theorem C7_provider_error (s : MemoryStore) (room_id : String) (cfg : LLMConfig)
    (trigger : String) (deltas : List ChatDelta) (detail rmid : String) (now : Nat)
    (room : StoredRoom) (hroom : s.get_room room_id = some room)
    (hnop : (processDeltas cfg rmid trigger now deltas
      ⟨s, [ServerEvent.llm_thinking cfg.id trigger], [], false, []⟩).opted_out
      = false) :
    ((call_llm s room_id cfg trigger (StreamOutcome.err deltas detail) rmid
        now).stored = none ∧
     (call_llm s room_id cfg trigger (StreamOutcome.err deltas detail) rmid
        now).store.messages = s.messages ∧
     (call_llm s room_id cfg trigger (StreamOutcome.err deltas detail) rmid
        now).events =
       (processDeltas cfg rmid trigger now deltas
         ⟨s, [ServerEvent.llm_thinking cfg.id trigger], [], false, []⟩).events ++
       [ServerEvent.error "LLM_ERROR"
         ("Error from " ++ cfg.display_name ++ ": " ++ detail)]) ∧
    ((call_llm_for_poll s room_id cfg trigger (StreamOutcome.err deltas detail)
        rmid now).stored = none ∧
     (call_llm_for_poll s room_id cfg trigger (StreamOutcome.err deltas detail)
        rmid now).store.messages = s.messages ∧
     (∀ code msg2, ServerEvent.error code msg2 ∉
        (call_llm_for_poll s room_id cfg trigger (StreamOutcome.err deltas detail)
          rmid now).events)) := by
  have hng : ¬ (processDeltas cfg rmid trigger now deltas
      ⟨s, [ServerEvent.llm_thinking cfg.id trigger], [], false, []⟩).opted_out
      = true := by
    rw [hnop]
    simp
  constructor
  · refine ⟨?_, ?_, ?_⟩
    · simp only [call_llm, hroom]
      rw [if_neg hng]
    · simp only [call_llm, hroom]
      rw [if_neg hng]
      exact (processDeltas_shape cfg rmid trigger now deltas _).1
    · simp only [call_llm, hroom]
      rw [if_neg hng]
  · refine ⟨?_, ?_, ?_⟩
    · simp only [call_llm_for_poll, hroom]
    · simp only [call_llm_for_poll, hroom]
      exact (processPollDeltas_shape cfg rmid trigger now deltas _).1
    · intro code msg2 h
      simp only [call_llm_for_poll, hroom] at h
      exact (events_classify _ rmid cfg trigger
        (poll_loop_events_shape cfg rmid trigger now deltas s)).2.2 code msg2 h

/-- Witness for `C7_provider_error`: a stream that errors after one
content delta. -/
theorem C7_provider_error_witness :
    (C7store.get_room "r1" = some
      ⟨"r1", "Room", 0, "alice", [C7cfg], "",
        RoomVisibility.ROOM_VISIBILITY_PUBLIC⟩ ∧
     (processDeltas C7cfg "m2" "t1" 4 [⟨"partial", [], false⟩]
       ⟨C7store, [ServerEvent.llm_thinking C7cfg.id "t1"], [], false, []⟩).opted_out
       = false) ∧
    (((call_llm C7store "r1" C7cfg "t1" (StreamOutcome.err [⟨"partial", [], false⟩]
        "boom") "m2" 4).stored = none ∧
     (call_llm C7store "r1" C7cfg "t1" (StreamOutcome.err [⟨"partial", [], false⟩]
        "boom") "m2" 4).store.messages = C7store.messages ∧
     (call_llm C7store "r1" C7cfg "t1" (StreamOutcome.err [⟨"partial", [], false⟩]
        "boom") "m2" 4).events =
       (processDeltas C7cfg "m2" "t1" 4 [⟨"partial", [], false⟩]
         ⟨C7store, [ServerEvent.llm_thinking C7cfg.id "t1"], [], false, []⟩).events ++
       [ServerEvent.error "LLM_ERROR"
         ("Error from " ++ C7cfg.display_name ++ ": " ++ "boom")]) ∧
    ((call_llm_for_poll C7store "r1" C7cfg "t1"
        (StreamOutcome.err [⟨"partial", [], false⟩] "boom") "m2" 4).stored = none ∧
     (call_llm_for_poll C7store "r1" C7cfg "t1"
        (StreamOutcome.err [⟨"partial", [], false⟩] "boom") "m2" 4).store.messages =
        C7store.messages ∧
     (∀ code msg2, ServerEvent.error code msg2 ∉
        (call_llm_for_poll C7store "r1" C7cfg "t1"
          (StreamOutcome.err [⟨"partial", [], false⟩] "boom") "m2" 4).events))) :=
  ⟨⟨by decide, by decide⟩,
   C7_provider_error C7store "r1" C7cfg "t1" [⟨"partial", [], false⟩] "boom" "m2" 4
     ⟨"r1", "Room", 0, "alice", [C7cfg], "", RoomVisibility.ROOM_VISIBILITY_PUBLIC⟩
     (by decide) (by decide)⟩

theorem mentionAccStep_fold_mem (llms : List LLMConfig) :
    ∀ (enum : List String) (acc : List LLMConfig) (l : LLMConfig),
      l ∈ enum.foldl (mentionAccStep llms) acc ↔
        l ∈ acc ∨ ∃ t ∈ enum, llmLookup llms (lowerStr t) = some l := by
  intro enum
  induction enum with
  | nil => intro acc l; simp
  | cons t ts ih =>
      intro acc l
      rw [List.foldl_cons, ih]
      constructor
      · rintro (h | h)
        · unfold mentionAccStep at h
          cases hlk : llmLookup llms (lowerStr t) with
          | none =>
              simp only [hlk] at h
              exact Or.inl h
          | some llm =>
              simp only [hlk] at h
              by_cases hmem : llm ∈ acc
              · rw [if_pos hmem] at h
                exact Or.inl h
              · rw [if_neg hmem] at h
                rcases List.mem_append.mp h with h2 | h2
                · exact Or.inl h2
                · rcases List.mem_singleton.mp h2 with rfl
                  exact Or.inr ⟨t, List.mem_cons_self t ts, hlk⟩
        · rcases h with ⟨t2, ht2, hlk2⟩
          exact Or.inr ⟨t2, List.mem_cons_of_mem _ ht2, hlk2⟩
      · rintro (h | h)
        · left
          unfold mentionAccStep
          cases hlk : llmLookup llms (lowerStr t) with
          | none =>
              simp only [hlk]
              exact h
          | some llm =>
              simp only [hlk]
              by_cases hmem : llm ∈ acc
              · rw [if_pos hmem]
                exact h
              · rw [if_neg hmem]
                exact List.mem_append.mpr (Or.inl h)
        · rcases h with ⟨t2, ht2, hlk2⟩
          rcases List.mem_cons.mp ht2 with h3 | h3
          · left
            unfold mentionAccStep
            rw [← h3]
            simp only [hlk2]
            by_cases hmem : l ∈ acc
            · rw [if_pos hmem]
              exact hmem
            · rw [if_neg hmem]
              exact List.mem_append.mpr (Or.inr (List.mem_singleton.mpr rfl))
          · exact Or.inr ⟨t2, h3, hlk2⟩

theorem mentionAccStep_fold_nodup (llms : List LLMConfig) :
    ∀ (enum : List String) (acc : List LLMConfig), acc.Nodup →
      (enum.foldl (mentionAccStep llms) acc).Nodup := by
  intro enum
  induction enum with
  | nil => intro acc h; exact h
  | cons t ts ih =>
      intro acc h
      rw [List.foldl_cons]
      refine ih _ ?_
      unfold mentionAccStep
      cases hlk : llmLookup llms (lowerStr t) with
      | none =>
          simp only [hlk]
          exact h
      | some llm =>
          simp only [hlk]
          by_cases hmem : llm ∈ acc
          · rw [if_pos hmem]
            exact h
          · rw [if_neg hmem]
            rw [List.nodup_append]
            exact ⟨h, List.nodup_singleton _, by
              intro a ha hb
              rcases List.mem_singleton.mp hb with rfl
              exact hmem ha⟩

theorem perm_any_eq (l1 l2 : List String) (hp : l1.Perm l2) (p : String → Bool) :
    l1.any p = l2.any p := by
  cases h1 : l1.any p with
  | true =>
      rcases List.any_eq_true.mp h1 with ⟨x, hx, hpx⟩
      exact (List.any_eq_true.mpr ⟨x, hp.subset hx, hpx⟩).symm
  | false =>
      cases h2 : l2.any p with
      | true =>
          rcases List.any_eq_true.mp h2 with ⟨x, hx, hpx⟩
          have := List.any_eq_true.mpr ⟨x, hp.symm.subset hx, hpx⟩
          rw [h1] at this
          exact absurd this (by simp)
      | false => rfl

/-- C5: refuted as stated. The loop `for mention in normalized_mentions`
iterates a Python set, whose element order is unspecified (string
hashing is randomized per process). For the content `@bob @alice` both
`[alice, bob]` and `[bob, alice]` are valid iteration orders of the
normalized-token set, and they produce differently ordered match lists,
so the output is neither ordered by first occurrence in the text nor
stable across runs. -/
theorem C5_counterexample :
    IsMentionEnum "@bob @alice" [] ["alice", "bob"] ∧
    IsMentionEnum "@bob @alice" [] ["bob", "alice"] ∧
    match_llms_from_mentions "@bob @alice" C5room ["alice", "bob"] =
      [C5alice, C5bob] ∧
    match_llms_from_mentions "@bob @alice" C5room ["bob", "alice"] =
      [C5bob, C5alice] ∧
    ([C5alice, C5bob] : List LLMConfig) ≠ [C5bob, C5alice] := by
  refine ⟨?_, ?_, ?_, ?_, ?_⟩ <;> decide

/-- C5 (amended): with the set-iteration order made explicit, mention
resolution returns every LLM of the room when `@all`/`@everyone`
matches; otherwise exactly the LLMs the case-insensitive index (id,
display name, underscored display name — later entries shadowing
earlier ones) yields for some normalized token, with duplicates
collapsed. The matched set does not depend on the iteration order, but
the output order follows the set order, not first occurrence. -/
theorem C5_mention_resolution (content : String) (hints : List String)
    (room : StoredRoom) (enum : List String)
    (henum : IsMentionEnum content hints enum) :
    (hasMentionAll content enum = true →
      match_llms_from_mentions content room enum = room.llms) ∧
    (hasMentionAll content enum = false →
      (∀ l, l ∈ match_llms_from_mentions content room enum ↔
        ∃ t ∈ enum, llmLookup room.llms (lowerStr t) = some l) ∧
      (match_llms_from_mentions content room enum).Nodup) ∧
    (∀ enum2, IsMentionEnum content hints enum2 →
      ∀ l, l ∈ match_llms_from_mentions content room enum ↔
        l ∈ match_llms_from_mentions content room enum2) := by
  refine ⟨?_, ?_, ?_⟩
  · intro h
    simp [match_llms_from_mentions, h]
  · intro h
    constructor
    · intro l
      rw [match_llms_from_mentions, if_neg (by simp [h])]
      rw [mentionAccStep_fold_mem room.llms enum [] l]
      simp
    · rw [match_llms_from_mentions, if_neg (by simp [h])]
      exact mentionAccStep_fold_nodup room.llms enum [] (List.nodup_nil)
  · intro enum2 henum2 l
    have hperm : enum.Perm enum2 := henum.trans henum2.symm
    have hall : hasMentionAll content enum = hasMentionAll content enum2 := by
      unfold hasMentionAll
      rw [perm_any_eq enum enum2 hperm]
    cases hA : hasMentionAll content enum with
    | true =>
        rw [match_llms_from_mentions, if_pos hA,
          match_llms_from_mentions, if_pos (by rw [← hall]; exact hA)]
    | false =>
        rw [match_llms_from_mentions, if_neg (by simp [hA]),
          match_llms_from_mentions, if_neg (by rw [← hall, hA]; simp)]
        rw [mentionAccStep_fold_mem room.llms enum [] l,
          mentionAccStep_fold_mem room.llms enum2 [] l]
        simp only [List.not_mem_nil, false_or]
        constructor
        · rintro ⟨t, ht, hlk⟩
          exact ⟨t, hperm.subset ht, hlk⟩
        · rintro ⟨t, ht, hlk⟩
          exact ⟨t, hperm.symm.subset ht, hlk⟩

/-- Witness for `C5_mention_resolution`: `@alice` with its singleton
iteration order. -/
theorem C5_mention_resolution_witness :
    IsMentionEnum "hi @alice" [] ["alice"] ∧
    ((hasMentionAll "hi @alice" ["alice"] = true →
      match_llms_from_mentions "hi @alice" C5room ["alice"] = C5room.llms) ∧
    (hasMentionAll "hi @alice" ["alice"] = false →
      (∀ l, l ∈ match_llms_from_mentions "hi @alice" C5room ["alice"] ↔
        ∃ t ∈ ["alice"], llmLookup C5room.llms (lowerStr t) = some l) ∧
      (match_llms_from_mentions "hi @alice" C5room ["alice"]).Nodup) ∧
    (∀ enum2, IsMentionEnum "hi @alice" [] enum2 →
      ∀ l, l ∈ match_llms_from_mentions "hi @alice" C5room ["alice"] ↔
        l ∈ match_llms_from_mentions "hi @alice" C5room enum2)) :=
  ⟨by decide, C5_mention_resolution "hi @alice" [] C5room ["alice"] (by decide)⟩

/-- C6: the claim matches the spec but the code violates it.
`_handle_join` assigns the handler's `room_id`/`user_id` from the frame
before checking that the room exists, so after a failed join
(`ROOM_NOT_FOUND` emitted, no participant persisted, no Registry
registration) the `message` guard `if not self._room_id or not
self._user_id` passes: the frame is stored — into the nonexistent
room — and `message_received` is broadcast to that room's (empty)
handler set, instead of being ignored. -/
theorem C6_failed_join_still_stores :
    (handle_join HandlerState.init MemoryStore.init []
      ⟨"missing", "u1", "Uma", Role.MEMBER, "", ""⟩ 0).events =
      [(EventTarget.toSelf,
        ServerEvent.error "ROOM_NOT_FOUND" "Room missing does not exist")] ∧
    (handle_join HandlerState.init MemoryStore.init []
      ⟨"missing", "u1", "Uma", Role.MEMBER, "", ""⟩ 0).store = MemoryStore.init ∧
    (handle_join HandlerState.init MemoryStore.init []
      ⟨"missing", "u1", "Uma", Role.MEMBER, "", ""⟩ 0).registry = [] ∧
    (handle_message
      (handle_join HandlerState.init MemoryStore.init []
        ⟨"missing", "u1", "Uma", Role.MEMBER, "", ""⟩ 0).handler
      MemoryStore.init []
      ⟨"hi", none, []⟩ "m1" 5).store.msgsOf "missing" =
      [⟨"m1", "missing", "u1", "Uma", ParticipantType.HUMAN, "hi", none, 5,
        make_sort_key 5 "m1", none⟩] ∧
    (handle_message
      (handle_join HandlerState.init MemoryStore.init []
        ⟨"missing", "u1", "Uma", Role.MEMBER, "", ""⟩ 0).handler
      MemoryStore.init []
      ⟨"hi", none, []⟩ "m1" 5).events =
      [(EventTarget.toRoom "missing",
        ServerEvent.message_received
          ⟨"m1", "missing", "u1", "Uma", ParticipantType.HUMAN, "hi", none, 5,
            make_sort_key 5 "m1", none⟩)] := by
  refine ⟨?_, ?_, ?_, ?_, ?_⟩ <;> decide

end RoomService
